/-
Verification of the tradervue-exporter core (internal/api/client.go,
internal/exporter, internal/models) against its natural-language
specification.  The Go source is shallowly embedded: pure helpers become
Lean functions, the stateful orchestrator (`Exporter.Run`) becomes an
explicit state transformer over a `World` (the data directory: the
state.json cursor file plus the per-day archive files), and every
network / filesystem effect is supplied by an explicit environment
(`Env`) of oracles.  `time.Time` values are modelled as `Nat`
timestamps; Go float64 monetary fields are modelled as `Int` (the core
never computes with them, it only carries and serializes them).
-/
import Mathlib

set_option maxHeartbeats 1000000
set_option maxRecDepth 10000

namespace TvExporter

/-! ## Calendar dates

Models Go `time.Time` values that the exporter uses at day granularity
(format "2006-01-02" = yyyy-mm-dd), together with `AddDate(0,0,1)` and
`After`. -/

structure Date where
  year : Nat
  month : Nat
  day : Nat
deriving DecidableEq, Repr

/-- Gregorian leap-year rule, as implemented by Go `time`. -/
def leapYear (y : Nat) : Bool :=
  decide ((y % 4 = 0 ∧ y % 100 ≠ 0) ∨ y % 400 = 0)

def daysInMonth (y m : Nat) : Nat :=
  if m = 2 then (if leapYear y then 29 else 28)
  else if m = 4 ∨ m = 6 ∨ m = 9 ∨ m = 11 then 30
  else 31

/-- `startDate.After(endDate)` : strict lexicographic comparison of dates. -/
def dateLt (a b : Date) : Bool :=
  decide (a.year < b.year ∨ (a.year = b.year ∧
    (a.month < b.month ∨ (a.month = b.month ∧ a.day < b.day))))

/-- `last.AddDate(0, 0, 1)` : the day after `d`. -/
def addDay (d : Date) : Date :=
  if d.day + 1 ≤ daysInMonth d.year d.month then ⟨d.year, d.month, d.day + 1⟩
  else if d.month + 1 ≤ 12 then ⟨d.year, d.month + 1, 1⟩
  else ⟨d.year + 1, 1, 1⟩

def pad2 (n : Nat) : String :=
  if n < 10 then "0" ++ toString n else toString n

def pad4 (n : Nat) : String :=
  if n < 10 then "000" ++ toString n
  else if n < 100 then "00" ++ toString n
  else if n < 1000 then "0" ++ toString n
  else toString n

/-- `t.Format(fileDateFmt)` with `fileDateFmt = "2006-01-02"`. -/
def formatFileDate (d : Date) : String :=
  pad4 d.year ++ "-" ++ pad2 d.month ++ "-" ++ pad2 d.day

def digitVal (c : Char) : Option Nat :=
  if c.isDigit then some (c.toNat - 48) else none

/-- `time.Parse("2006-01-02", s)` : exactly `yyyy-mm-dd`, zero-padded,
with calendar validation (month 1..12, day 1..daysInMonth, leap years). -/
def parseFileDate (s : String) : Option Date :=
  match s.toList with
  | [y1, y2, y3, y4, s1, m1, m2, s2, d1, d2] =>
    if s1 = '-' ∧ s2 = '-' then
      match digitVal y1, digitVal y2, digitVal y3, digitVal y4,
            digitVal m1, digitVal m2, digitVal d1, digitVal d2 with
      | some a, some b, some c, some d, some e, some f, some g, some h =>
        let y := ((a * 10 + b) * 10 + c) * 10 + d
        let m := e * 10 + f
        let dd := g * 10 + h
        if 1 ≤ m ∧ m ≤ 12 ∧ 1 ≤ dd ∧ dd ≤ daysInMonth y m then
          some ⟨y, m, dd⟩
        else none
      | _, _, _, _, _, _, _, _ => none
    else none
  | _ => none

/-! ## Data model (internal/models/models.go)

Go float64 fields are modelled as `Int`; `*T` fields as `Option T`.
Field defaults are the Go zero values. -/

structure Execution where
  id : Nat := 0
  datetime : String := ""
  symbol : String := ""
  quantity : Int := 0
  price : Int := 0
  commission : Int := 0
  transFee : Int := 0
  ecnFee : Int := 0
deriving DecidableEq, Repr

structure JournalEntry where
  id : Nat := 0
  date : String := ""
  notes : String := ""
  commentCount : Nat := 0
  tradeCount : Nat := 0
  totalVolume : Nat := 0
  grossPL : Int := 0
  commFees : Int := 0
  tradeIDs : List Nat := []
deriving DecidableEq, Repr

structure Trade where
  id : Nat := 0
  symbol : String := ""
  volume : Nat := 0
  openFlag : Bool := false  -- Go field `Open`
  side : String := ""
  entryPrice : Int := 0
  exitPrice : Option Int := none
  grossPL : Int := 0
  nativePL : Option Int := none
  nativeCurrency : Option String := none
  commission : Int := 0
  fees : Int := 0
  startDatetime : String := ""
  endDatetime : Option String := none
  duration : String := ""
  notes : String := ""
  notesExcerpt : String := ""
  tags : List String := []
  shared : Bool := false
  initialRisk : Option Int := none
  execCount : Nat := 0
  commentCount : Nat := 0
  positionMFE : Option Int := none
  positionMFEDatetime : Option String := none
  positionMAE : Option Int := none
  positionMAEDatetime : Option String := none
  priceMFE : Option Int := none
  priceMFEDatetime : Option String := none
  priceMAE : Option Int := none
  priceMAEDatetime : Option String := none
  bestExitPL : Option Int := none
  bestExitPLDatetime : Option String := none
deriving DecidableEq, Repr

/-- models.DayExport: everything persisted for one trading day.
`ExportedAt time.Time` is modelled as a `Nat` timestamp; the
`Executions map[int][]Execution` as an association list in insertion
order. -/
structure DayExport where
  date : String := ""
  trades : List Trade := []
  executions : Option (List (Nat × List Execution)) := none
  journal : Option JournalEntry := none
  exportedAt : Nat := 0
deriving DecidableEq, Repr

/-- models.ExportState: the progress-cursor document (state.json). -/
structure ExportState where
  lastExportDate : String := ""
  firstTradeDate : String := ""
  totalTrades : Nat := 0
  totalDays : Nat := 0
  lastRunAt : Nat := 0
deriving DecidableEq, Repr

/-! ## Go string comparison

Go compares strings bytewise-lexicographically; on UTF-8 bytes this is
the same order as codepoint-lexicographic.  (Defined structurally so
that concrete runs evaluate.) -/

def charsLt : List Char → List Char → Bool
  | _, [] => false
  | [], _ :: _ => true
  | a :: as, b :: bs =>
    if a.toNat < b.toNat then true
    else if b.toNat < a.toNat then false
    else charsLt as bs

/-- Go `a < b` on strings. -/
def strLt (a b : String) : Bool := charsLt a.data b.data

/-- Go `a <= b` on strings. -/
def strLe (a b : String) : Bool := !strLt b a

/-! ## Sorting (sort.Strings in sortedKeys; sorted int keys in encoding/json) -/

def insertSortedBy (lt : α → α → Bool) (a : α) : List α → List α
  | [] => [a]
  | b :: rest => if lt a b then a :: b :: rest else b :: insertSortedBy lt a rest

def insertionSortBy (lt : α → α → Bool) : List α → List α
  | [] => []
  | a :: rest => insertSortedBy lt a (insertionSortBy lt rest)

/-- `sort.Strings`: ascending lexicographic sort. -/
def sortStrings (l : List String) : List String :=
  insertionSortBy strLt l

/-! ## JSON serialization (json.MarshalIndent in saveDayExport)

Deterministic structural serializer for the day archive, with Go's
struct-declaration field order, `omitempty` semantics and
numerically-sorted map keys.  The indentation whitespace that
`MarshalIndent` inserts is deterministic and value-independent, so it is
elided here: two model outputs are equal iff the real byte streams are. -/

def q (s : String) : String := "\"" ++ s ++ "\""

def jObj (fields : List String) : String :=
  "\x7b" ++ String.intercalate "," fields ++ "\x7d"

def jArr (elems : List String) : String :=
  "[" ++ String.intercalate "," elems ++ "]"

def jField (name val : String) : String := q name ++ ":" ++ val

def jInt (n : Int) : String := toString n

def jNat (n : Nat) : String := toString n

def jBool (b : Bool) : String := if b then "true" else "false"

/-- A field that Go tags `omitempty`: omitted when the pointer is nil. -/
def jOptField (name : String) (f : α → String) : Option α → List String
  | none => []
  | some v => [jField name (f v)]

def marshalExecution (e : Execution) : String :=
  jObj [jField "id" (jNat e.id), jField "datetime" (q e.datetime),
    jField "symbol" (q e.symbol), jField "quantity" (jInt e.quantity),
    jField "price" (jInt e.price), jField "commission" (jInt e.commission),
    jField "trans_fee" (jInt e.transFee), jField "ecn_fee" (jInt e.ecnFee)]

def marshalTrade (t : Trade) : String :=
  jObj ([jField "id" (jNat t.id), jField "symbol" (q t.symbol),
    jField "volume" (jNat t.volume), jField "open" (jBool t.openFlag),
    jField "side" (q t.side), jField "entry_price" (jInt t.entryPrice)]
    ++ jOptField "exit_price" jInt t.exitPrice
    ++ [jField "gross_pl" (jInt t.grossPL)]
    ++ jOptField "native_pl" jInt t.nativePL
    ++ jOptField "native_currency" q t.nativeCurrency
    ++ [jField "commission" (jInt t.commission), jField "fees" (jInt t.fees),
        jField "start_datetime" (q t.startDatetime)]
    ++ jOptField "end_datetime" q t.endDatetime
    ++ [jField "duration" (q t.duration), jField "notes" (q t.notes),
        jField "notes_excerpt" (q t.notesExcerpt),
        jField "tags" (jArr (t.tags.map q)),
        jField "shared" (jBool t.shared)]
    ++ jOptField "initial_risk" jInt t.initialRisk
    ++ [jField "exec_count" (jNat t.execCount),
        jField "comment_count" (jNat t.commentCount)]
    ++ jOptField "position_mfe" jInt t.positionMFE
    ++ jOptField "position_mfe_datetime" q t.positionMFEDatetime
    ++ jOptField "position_mae" jInt t.positionMAE
    ++ jOptField "position_mae_datetime" q t.positionMAEDatetime
    ++ jOptField "price_mfe" jInt t.priceMFE
    ++ jOptField "price_mfe_datetime" q t.priceMFEDatetime
    ++ jOptField "price_mae" jInt t.priceMAE
    ++ jOptField "price_mae_datetime" q t.priceMAEDatetime
    ++ jOptField "best_exit_pl" jInt t.bestExitPL
    ++ jOptField "best_exit_pl_datetime" q t.bestExitPLDatetime)

def marshalJournal (j : JournalEntry) : String :=
  jObj [jField "id" (jNat j.id), jField "date" (q j.date),
    jField "notes" (q j.notes), jField "comment_count" (jNat j.commentCount),
    jField "trade_count" (jNat j.tradeCount),
    jField "total_volume" (jNat j.totalVolume),
    jField "gross_pl" (jInt j.grossPL), jField "commfees" (jInt j.commFees),
    jField "trade_ids" (jArr (j.tradeIDs.map jNat))]

/-- encoding/json marshals an int-keyed map with keys in ascending order. -/
def marshalExecMap (m : List (Nat × List Execution)) : String :=
  jObj ((insertionSortBy (fun a b => decide (a.1 < b.1)) m).map
    (fun p => jField (toString p.1) (jArr (p.2.map marshalExecution))))

/-- The bytes `saveDayExport` writes for one day (whitespace elided).
A present-but-empty executions map is `omitempty`-omitted like nil. -/
def marshalDayExport (day : DayExport) : String :=
  jObj ([jField "date" (q day.date),
    jField "trades" (jArr (day.trades.map marshalTrade))]
    ++ (match day.executions with
        | some (p :: rest) => [jField "executions" (marshalExecMap (p :: rest))]
        | _ => [])
    ++ (match day.journal with
        | some j => [jField "journal" (marshalJournal j)]
        | none => [])
    ++ [jField "exported_at" (jNat day.exportedAt)])

/-! ## API client (internal/api/client.go)

Time is modelled in milliseconds.  `requestDelay = 200ms`,
`maxRetries = 3`, retry backoff `1<<attempt` seconds. -/

def requestDelayMs : Nat := 200

def maxRetries : Nat := 3

/-- Backoff slept before attempt `a` (a ≥ 1): `1<<a` seconds, in ms. -/
def backoffMs (a : Nat) : Nat := 1000 * 2 ^ a

/-- One observable outcome of `c.httpClient.Do(req)` + `io.ReadAll`:
either a network-level failure, a body-read failure, or an HTTP
response with a status, a body, and whether `json.Unmarshal` of the
body would succeed. -/
inductive Outcome
  | net (e : String)
  | readErr (e : String)
  | resp (status : Nat) (body : String) (parseOk : Bool)
deriving DecidableEq, Repr

/-- A transient cause recorded in `lastErr` (retried branches of doGet). -/
inductive Cause
  | net (e : String)
  | read (e : String)
  | server (status : Nat) (body : String)
deriving DecidableEq, Repr

/-- The ways `doGet` returns. -/
inductive GetResult
  | ok
  | authFailed
  | badRequest (body : String)
  | unexpectedStatus (status : Nat) (body : String)
  | parseError
  | exhausted (last : Option Cause)
deriving DecidableEq, Repr

/-- Classifies an attempt outcome as transient (retried, with its
recorded cause) or not.  Mirrors doGet's `continue` branches. -/
def transientCause : Outcome → Option Cause
  | .net e => some (.net e)
  | .readErr e => some (.read e)
  | .resp st b _ => if st ≥ 500 then some (.server st b) else none

/-- The retry loop of `doGet` (client.go lines 115-153).  `out a` is the
outcome of attempt `a` (0-based); returns the result, the number of
attempts issued, and the backoff waits slept (in seconds), in order. -/
def doGetAux (out : Nat → Outcome) : Nat → Nat → Option Cause → List Nat →
    GetResult × Nat × List Nat
  | a, 0, lastErr, waits => (.exhausted lastErr, a, waits.reverse)
  | a, fuel + 1, _, waits =>
    let waits1 := if a > 0 then 2 ^ a :: waits else waits
    match out a with
    | .net e => doGetAux out (a + 1) fuel (some (.net e)) waits1
    | .readErr e => doGetAux out (a + 1) fuel (some (.read e)) waits1
    | .resp st b p =>
      if st = 401 then (.authFailed, a + 1, waits1.reverse)
      else if st = 400 then (.badRequest b, a + 1, waits1.reverse)
      else if st ≥ 500 then doGetAux out (a + 1) fuel (some (.server st b)) waits1
      else if st ≠ 200 then (.unexpectedStatus st b, a + 1, waits1.reverse)
      else if p then (.ok, a + 1, waits1.reverse)
      else (.parseError, a + 1, waits1.reverse)

/-- `doGet`'s attempt loop with `maxRetries = 3` attempts. -/
def doGet (out : Nat → Outcome) : GetResult × Nat × List Nat :=
  doGetAux out 0 maxRetries none []

/-! ### Rate limiter (client.go lines 156-165)

`rateLimit` sleeps until `requestDelay` has elapsed since `c.lastReq`,
then stamps `c.lastReq = time.Now()`.  The stamped time is the issue
time of the doGet call's first attempt. -/

/-- The time at which `rateLimit` returns (= issue time of the first
attempt), given the previous stamp and the current clock. -/
def rateLimit (lastReq : Option Nat) (now : Nat) : Nat :=
  match lastReq with
  | none => now
  | some l => if now - l < requestDelayMs then l + requestDelayMs else now

/-- One doGet call as seen by the timing model: per-attempt outcomes and
per-attempt response durations (ms), plus the caller's think time after
the call returns. -/
structure CallSpec where
  out : Nat → Outcome
  dur : Nat → Nat
  gapAfter : Nat := 0

/-- Issue times of the attempts of one doGet call whose first attempt
issues at time `t`: attempt `a+1` issues `backoffMs (a+1)` after attempt
`a` completes (client.go lines 117-120).  Returns the attempt issue
times and the call's completion time. -/
def attemptTimes (out : Nat → Outcome) (dur : Nat → Nat) :
    Nat → Nat → Nat → List Nat × Nat
  | _, 0, t => ([], t)
  | a, fuel + 1, t =>
    let issue := if a = 0 then t else t + backoffMs a
    let fin := issue + dur a
    match transientCause (out a) with
    | some _ =>
      let r := attemptTimes out dur (a + 1) fuel fin
      (issue :: r.1, r.2)
    | none => ([issue], fin)

/-- All HTTP request issue times of a sequence of doGet calls through
one Client, starting with stamp `lastReq` at clock `t`.  Also returns
the stamped (rateLimit-recorded) issue times. -/
def clientTrace (lastReq : Option Nat) (t : Nat) :
    List CallSpec → List Nat × List Nat
  | [] => ([], [])
  | cs :: rest =>
    let s := rateLimit lastReq t
    let af := attemptTimes cs.out cs.dur 0 maxRetries s
    let c := clientTrace (some s) (af.2 + cs.gapAfter) rest
    (af.1 ++ c.1, s :: c.2)

/-! ## RangeDiscoverer (discoverFirstTradeDate, client.go lines 593-627)

`ListTrades` on a fixed newest-first record list is page
`(records.drop ((page-1)*100)).take 100`; the loop walks successive
pages, keeping the last element of each page, and stops at the first
short or empty page.  The loop is phrased over the records remaining
after the pages already read. -/

def maxPerPage : Nat := 100

/-- Page `page` (1-based) of a synthetic newest-first source. -/
def listPage (records : List Trade) (page : Nat) : List Trade :=
  (records.drop ((page - 1) * maxPerPage)).take maxPerPage

/-- The pagination loop of `discoverFirstTradeDate`: `oldest` is the
last element of the previous page (`found` is `oldest.isSome`). -/
def discoverLoop (remaining : List Trade) (oldest : Option Trade) :
    Option Trade :=
  let tr := remaining.take maxPerPage
  if h : tr = [] then oldest
  else if tr.length < maxPerPage then some (tr.getLast h)
  else discoverLoop (remaining.drop maxPerPage) (some (tr.getLast h))
termination_by remaining.length
decreasing_by
  rename_i hfull
  have hfull2 : maxPerPage ≤ (List.take maxPerPage remaining).length :=
    Nat.not_lt.mp hfull
  rw [List.length_take] at hfull2
  have hpos : 0 < maxPerPage := by norm_num [maxPerPage]
  simp only [List.length_drop]
  omega

/-- `discoverFirstTradeDate`: scan to the oldest record, then parse its
start date (`pd` models `parseTradeDate`).  Empty first page ⇒ the
"no trades found" error. -/
def discoverFirstTradeDate (pd : String → Option Date) (records : List Trade) :
    Except String Date :=
  match discoverLoop records none with
  | none => .error "no trades found in your Tradervue account"
  | some t =>
    match pd t.startDatetime with
    | some d => .ok d
    | none => .error ("cannot parse date " ++ q t.startDatetime)

/-! ## DayAggregator (groupTradesByDate, fetchExecutionsForTrades)

Go's `map[string][]Trade` with `append` is modelled as an association
list in key-insertion order, each bucket in trade order.  The date
parser `pd` models `parseTradeDate` (RFC 3339 converted to the
America/New_York reference timezone, with a yyyy-mm-dd fallback); the
grouping is proved for every parser, so it covers the real one. -/

def bucketAdd (m : List (String × List Trade)) (k : String) (t : Trade) :
    List (String × List Trade) :=
  match m with
  | [] => [(k, [t])]
  | (k1, ts) :: rest =>
    if k1 = k then (k1, ts ++ [t]) :: rest else (k1, ts) :: bucketAdd rest k t

def bucketGet (m : List (String × List Trade)) (k : String) : List Trade :=
  match m with
  | [] => []
  | (k1, ts) :: rest => if k1 = k then ts else bucketGet rest k

/-- groupTradesByDate (client.go lines 656-671): trades whose start
datetime fails to parse are skipped (with a logged warning); the rest
are appended to the bucket of their formatted date. -/
def groupTradesByDate (pd : String → Option Date) (trades : List Trade) :
    List (String × List Trade) :=
  trades.foldl
    (fun m t =>
      match pd t.startDatetime with
      | none => m
      | some d => bucketAdd m (formatFileDate d) t)
    []

/-- The bucket key a trade would get, if its date parses. -/
def keyOf (pd : String → Option Date) (t : Trade) : Option String :=
  (pd t.startDatetime).map formatFileDate

/-- fetchExecutionsForTrades (client.go lines 673-688): one GetExecutions
call per trade; ANY single failure aborts with that error; empty
execution lists are not recorded. -/
def fetchExecutionsForTrades (getExec : Nat → Except String (List Execution)) :
    List Trade → Except String (List (Nat × List Execution))
  | [] => .ok []
  | t :: rest =>
    match getExec t.id with
    | .error e => .error ("fetching executions for trade " ++ toString t.id
        ++ ": " ++ e)
    | .ok execs =>
      match fetchExecutionsForTrades getExec rest with
      | .error e => .error e
      | .ok m => .ok (if execs.isEmpty then m else (t.id, execs) :: m)

/-! ## ExportOrchestrator (Exporter.Run, client.go lines 473-591)

The data directory is a `World`: the state.json file (which can be
absent, unreadable, or hold invalid JSON) and the per-day archive
files.  All effects are oracles in `Env`.  `runExport` returns the
final world and `Run`'s returned error, if any. -/

/-- The on-disk condition of state.json as `loadState` sees it. -/
inductive StateFile
  | absent
  | unreadable
  | badJSON
  | parsed (s : ExportState)
deriving DecidableEq, Repr

structure World where
  stateFile : StateFile
  archives : List (String × DayExport)
deriving DecidableEq, Repr

/-- Options (exporter): --with-executions, --from, --to, --force. -/
structure Options where
  withExecutions : Bool := false
  fromDate : String := ""
  toDate : String := ""
  force : Bool := false

/-- The errors `Run` can return, by source site.  `emptyDatesPanic`
models the `dates[0]` index-out-of-range panic Go would hit if every
fetched trade had an unparseable date (loop writes nothing, then
`dates[0]` on an empty slice). -/
inductive RunErr
  | mkdir (e : String)
  | invalidFrom (s : String)
  | invalidTo (s : String)
  | corruptState
  | discover (e : String)
  | fetch (e : String)
  | saveDay (date : String) (e : String)
  | saveState (e : String)
  | emptyDatesPanic
deriving DecidableEq, Repr

/-- The effect oracles of one run: filesystem and network outcomes plus
the clock.  `nowTS` models `time.Now()` timestamps observed during the
run (ExportedAt / LastRunAt); `now` is today's date (default end of
window).  `saveDay`/`saveState` give the I/O error, if any, of the
corresponding WriteFile. -/
structure Env where
  mkdir : Option String := none
  discover : Except String Date
  fetch : Date → Date → Except String (List Trade)
  parseDate : String → Option Date
  getExec : Nat → Except String (List Execution) := fun _ => .ok []
  saveDay : String → Option String := fun _ => none
  saveState : Option String := none
  now : Date
  nowTS : Nat := 0

/-- `state, _ := e.loadState()` : read errors and JSON errors are
swallowed, yielding a nil state. -/
def loadState : StateFile → Option ExportState
  | .parsed s => some s
  | _ => none

/-- Window start resolution (client.go lines 485-506): explicit --from
wins; else resume from the cursor (+1 day) when one exists with a
non-empty last-export date and --force is not set; else discovery. -/
def resolveStart (env : Env) (opts : Options) (state : Option ExportState) :
    Except RunErr Date :=
  if opts.fromDate ≠ "" then
    match parseFileDate opts.fromDate with
    | none => .error (.invalidFrom opts.fromDate)
    | some d => .ok d
  else
    match state with
    | some s =>
      if s.lastExportDate ≠ "" ∧ opts.force = false then
        match parseFileDate s.lastExportDate with
        | none => .error .corruptState
        | some d => .ok (addDay d)
      else
        match env.discover with
        | .error e => .error (.discover e)
        | .ok d => .ok d
    | none =>
      match env.discover with
      | .error e => .error (.discover e)
      | .ok d => .ok d

/-- Window end resolution (client.go lines 508-516): explicit --to or
today. -/
def resolveEnd (env : Env) (opts : Options) : Except RunErr Date :=
  if opts.toDate ≠ "" then
    match parseFileDate opts.toDate with
    | none => .error (.invalidTo opts.toDate)
    | some d => .ok d
  else .ok env.now

/-- The DayExport built for one date in the per-day loop (client.go
lines 545-559): executions attached only when requested and when
fetchExecutionsForTrades succeeded; on failure only a warning is
logged and the field stays nil. -/
def mkDay (env : Env) (opts : Options) (date : String) (trades : List Trade) :
    DayExport :=
  { date := date
    trades := trades
    executions :=
      if opts.withExecutions then
        match fetchExecutionsForTrades env.getExec trades with
        | .ok m => some m
        | .error _ => none
      else none
    journal := none
    exportedAt := env.nowTS }

/-- Overwrite-or-append an archive file. -/
def setArchive (archv : List (String × DayExport)) (k : String) (v : DayExport) :
    List (String × DayExport) :=
  match archv with
  | [] => [(k, v)]
  | (k1, d) :: rest =>
    if k1 = k then (k1, v) :: rest else (k1, d) :: setArchive rest k v

def lookupArchive (archv : List (String × DayExport)) (k : String) :
    Option DayExport :=
  match archv with
  | [] => none
  | (k1, d) :: rest => if k1 = k then some d else lookupArchive rest k

/-- The per-day loop (client.go lines 541-568): in date order, build the
DayExport and write it; the first saveDayExport failure aborts with
that error (archives already written stay on disk). -/
def persistDays (env : Env) (opts : Options)
    (byDate : List (String × List Trade)) :
    List String → List (String × DayExport) →
    List (String × DayExport) × Option RunErr
  | [], archv => (archv, none)
  | d :: rest, archv =>
    let day := mkDay env opts d (bucketGet byDate d)
    match env.saveDay d with
    | some e => (archv, some (.saveDay d e))
    | none => persistDays env opts byDate rest (setArchive archv d day)

/-- The cursor update (client.go lines 570-583).  String comparisons are
Go's lexicographic `<` / `>` on yyyy-mm-dd keys. -/
def updateState (st : ExportState) (d0 dlast : String) (ndays ntrades : Nat)
    (now : Nat) : ExportState :=
  { firstTradeDate :=
      if st.firstTradeDate = "" ∨ strLt d0 st.firstTradeDate then d0
      else st.firstTradeDate
    lastExportDate :=
      if strLt st.lastExportDate dlast then dlast else st.lastExportDate
    totalTrades := st.totalTrades + ntrades
    totalDays := st.totalDays + ndays
    lastRunAt := now }

/-- Total trades over the dates of a run (the loop's running count). -/
def totalTradesOf (byDate : List (String × List Trade)) (dates : List String) :
    Nat :=
  (dates.map (fun d => (bucketGet byDate d).length)).sum

/-- The outcome of `Run`'s body: resulting archive files, the new cursor
if (and only if) saveState succeeded, and the returned error. -/
structure RunOutcome where
  archives : List (String × DayExport)
  stateUpd : Option ExportState
  err : Option RunErr
deriving Repr

/-- The aggregate-and-persist phase of `Run` (client.go lines 536-591),
entered once a nonempty trade list has been fetched: group, write each
day, then update and save the cursor.  (Go binds `byDate` once; it is
repeated here verbatim, which is equal by referential transparency.) -/
def runPersist (env : Env) (opts : Options) (allTrades : List Trade)
    (archv : List (String × DayExport)) (state : Option ExportState) :
    RunOutcome :=
  match sortStrings ((groupTradesByDate env.parseDate allTrades).map Prod.fst) with
  | [] => ⟨archv, none, some .emptyDatesPanic⟩
  | d0 :: rest =>
    match persistDays env opts (groupTradesByDate env.parseDate allTrades)
        (d0 :: rest) archv with
    | (archv1, some er) => ⟨archv1, none, some er⟩
    | (archv1, none) =>
      match env.saveState with
      | some e => ⟨archv1, none, some (.saveState e)⟩
      | none =>
        ⟨archv1,
         some (updateState (state.getD {}) d0 ((d0 :: rest).getLastD d0)
           (d0 :: rest).length
           (totalTradesOf (groupTradesByDate env.parseDate allTrades)
             (d0 :: rest))
           env.nowTS),
         none⟩

/-- `Exporter.Run` (client.go lines 473-591), with state.json already
read into `state`. -/
def runBody (env : Env) (opts : Options) (archv : List (String × DayExport))
    (state : Option ExportState) : RunOutcome :=
  match env.mkdir with
  | some e => ⟨archv, none, some (.mkdir e)⟩
  | none =>
    match resolveStart env opts state with
    | .error er => ⟨archv, none, some er⟩
    | .ok startDate =>
      match resolveEnd env opts with
      | .error er => ⟨archv, none, some er⟩
      | .ok endDate =>
        if dateLt endDate startDate then
          -- "Already up to date."  Successful, nothing written.
          ⟨archv, none, none⟩
        else
          match env.fetch startDate endDate with
          | .error e => ⟨archv, none, some (.fetch e)⟩
          | .ok allTrades =>
            if allTrades.isEmpty then
              -- "No trades found in the date range."  Successful.
              ⟨archv, none, none⟩
            else
              runPersist env opts allTrades archv state

/-- `Exporter.Run` over a `World`: state.json is rewritten exactly when
`runBody` produced a cursor update. -/
def runExport (env : Env) (opts : Options) (w : World) :
    World × Option RunErr :=
  let r := runBody env opts w.archives (loadState w.stateFile)
  (⟨match r.stateUpd with
    | some s => .parsed s
    | none => w.stateFile, r.archives⟩, r.err)

/-- A sequence of runs (each with its own oracles and options). -/
def runSeq (runs : List (Env × Options)) (w : World) : World :=
  runs.foldl (fun w1 p => (runExport p.1 p.2 w1).1) w

/-! ## Helper lemmas -/

theorem getLast?_append_right {α : Type} {l₁ l₂ : List α} (h : l₂ ≠ []) :
    (l₁ ++ l₂).getLast? = l₂.getLast? := by
  rw [List.getLast?_append]
  obtain ⟨x, hx⟩ := Option.isSome_iff_exists.mp (List.getLast?_isSome.mpr h)
  rw [hx]
  rfl

theorem discoverLoop_eq (n : Nat) :
    ∀ (remaining : List Trade), remaining.length ≤ n → ∀ acc,
      discoverLoop remaining acc =
        if remaining = [] then acc else remaining.getLast? := by
  induction n with
  | zero =>
    intro remaining hlen acc
    have hr : remaining = [] := List.length_eq_zero.mp (Nat.le_zero.mp hlen)
    subst hr
    unfold discoverLoop
    simp
  | succ n ih =>
    intro remaining hlen acc
    unfold discoverLoop
    cases remaining with
    | nil => simp
    | cons a l =>
      have hne : (a :: l : List Trade) ≠ [] := by simp
      have htake_ne : (List.take maxPerPage (a :: l)) ≠ [] := by
        simp [maxPerPage]
      rw [dif_neg htake_ne, if_neg hne]
      by_cases hshort : (a :: l).length ≤ maxPerPage
      · have htr : List.take maxPerPage (a :: l) = a :: l :=
          List.take_of_length_le hshort
        by_cases hlt : (List.take maxPerPage (a :: l)).length < maxPerPage
        · rw [if_pos hlt]
          rw [List.getLast?_eq_getLast _ hne]
          congr 1
          exact List.getLast_congr _ _ htr
        · rw [if_neg hlt]
          -- full final page: the next page is empty, the loop returns the
          -- saved last element of this page
          have hdrop : List.drop maxPerPage (a :: l) = [] := by
            rw [List.drop_eq_nil_iff]
            exact hshort
          rw [hdrop]
          unfold discoverLoop
          simp only [List.take_nil, dite_true]
          rw [List.getLast?_eq_getLast _ hne]
          congr 1
          exact List.getLast_congr _ _ htr
      · push_neg at hshort
        have hlt : ¬ (List.take maxPerPage (a :: l)).length < maxPerPage := by
          rw [List.length_take]
          omega
        rw [if_neg hlt]
        have hdlen : (List.drop maxPerPage (a :: l)).length ≤ n := by
          rw [List.length_drop]
          have : (a :: l).length ≤ n + 1 := hlen
          have hpos : 0 < maxPerPage := by norm_num [maxPerPage]
          omega
        rw [ih _ hdlen]
        have hdne : List.drop maxPerPage (a :: l) ≠ [] := by
          rw [Ne, List.drop_eq_nil_iff]
          omega
        rw [if_neg hdne]
        conv_rhs => rw [← List.take_append_drop maxPerPage (a :: l)]
        rw [getLast?_append_right hdne]

theorem discoverLoop_getLast? (records : List Trade) (h : records ≠ []) :
    discoverLoop records none = records.getLast? := by
  rw [discoverLoop_eq records.length records (Nat.le_refl _) none, if_neg h]

/-! ## C3 -/

/-- C3: on a newest-first paginated source of N records (pages of 100),
discoverFirstTradeDate returns the start date of the last (oldest)
record — for every N, including N < 100 and N an exact multiple of 100
— and returns the "no records" error when the source is empty. -/
theorem discoverFirstTradeDate_correct (pd : String → Option Date)
    (records : List Trade) :
    (records = [] → discoverFirstTradeDate pd records =
      .error "no trades found in your Tradervue account") ∧
    (∀ h : records ≠ [], ∀ d,
      pd (records.getLast h).startDatetime = some d →
      discoverFirstTradeDate pd records = .ok d) := by
  constructor
  · intro hr
    subst hr
    unfold discoverFirstTradeDate
    rw [show discoverLoop ([] : List Trade) none = none from by
      rw [discoverLoop_eq 0 [] (Nat.le_refl 0) none]; simp]
  · intro h d hpd
    unfold discoverFirstTradeDate
    rw [discoverLoop_getLast? records h, List.getLast?_eq_getLast _ h]
    simp [hpd]

def c3oldest : Trade := { startDatetime := "2025-01-02" }

def c3blank : Trade := { id := 0 }

/-- A source of exactly 100 records (an exact multiple of the page
size): page 1 is full, page 2 is empty. -/
def c3records : List Trade := List.replicate 99 c3blank ++ [c3oldest]

/-- Witness for C3 at a concrete empty source and a concrete 100-record
source. -/
theorem discoverFirstTradeDate_correct_witness :
    discoverFirstTradeDate parseFileDate [] =
      .error "no trades found in your Tradervue account" ∧
    discoverFirstTradeDate parseFileDate c3records = .ok ⟨2025, 1, 2⟩ :=
  ⟨(discoverFirstTradeDate_correct parseFileDate []).1 rfl,
   (discoverFirstTradeDate_correct parseFileDate c3records).2
     (by decide) ⟨2025, 1, 2⟩ (by decide)⟩

/-! ## C4 -/

/-- C4: doGet's retry policy.  HTTP 401 and 400 terminate at once with
no further attempt and no backoff; any other non-200, non-transient
status terminates at once; transient outcomes (network failure,
body-read failure, status ≥ 500) are retried up to the fixed maximum of
3 attempts with exponential backoff (2^attempt seconds before each
attempt after the first); exhausting all attempts returns a terminal
error wrapping the last observed cause. -/
theorem doGet_retry_policy (out : Nat → Outcome) :
    (∀ b p, out 0 = .resp 401 b p → doGet out = (.authFailed, 1, [])) ∧
    (∀ b p, out 0 = .resp 400 b p → doGet out = (.badRequest b, 1, [])) ∧
    (∀ st b p, out 0 = .resp st b p → st ≠ 200 → st ≠ 400 → st ≠ 401 →
      st < 500 → doGet out = (.unexpectedStatus st b, 1, [])) ∧
    (∀ c0 c1 c2, transientCause (out 0) = some c0 →
      transientCause (out 1) = some c1 → transientCause (out 2) = some c2 →
      doGet out = (.exhausted (some c2), 3, [2, 4])) ∧
    (∀ c0 b, transientCause (out 0) = some c0 → out 1 = .resp 200 b true →
      doGet out = (.ok, 2, [2])) := by
  have step : ∀ a fuel last waits c, transientCause (out a) = some c →
      doGetAux out a (fuel + 1) last waits =
        doGetAux out (a + 1) fuel (some c)
          (if a > 0 then 2 ^ a :: waits else waits) := by
    intro a fuel last waits c hc
    cases hout : out a with
    | net e =>
      rw [hout] at hc
      simp only [transientCause, Option.some.injEq] at hc
      subst hc
      simp [doGetAux, hout]
    | readErr e =>
      rw [hout] at hc
      simp only [transientCause, Option.some.injEq] at hc
      subst hc
      simp [doGetAux, hout]
    | resp st b p =>
      rw [hout] at hc
      simp only [transientCause] at hc
      by_cases h5 : st ≥ 500
      · rw [if_pos h5, Option.some.injEq] at hc
        subst hc
        have h401 : st ≠ 401 := by omega
        have h400 : st ≠ 400 := by omega
        simp [doGetAux, hout, h401, h400, h5]
      · rw [if_neg h5] at hc
        exact absurd hc (by simp)
  refine ⟨?_, ?_, ?_, ?_, ?_⟩
  · intro b p h0
    simp [doGet, maxRetries, doGetAux, h0]
  · intro b p h0
    simp [doGet, maxRetries, doGetAux, h0]
  · intro st b p h0 h200 h400 h401 h500
    simp [doGet, maxRetries, doGetAux, h0, h200, h400, h401, Nat.not_le.mpr h500]
  · intro c0 c1 c2 h0 h1 h2
    rw [doGet, maxRetries, step 0 2 none [] c0 h0, step 1 1 _ _ c1 h1,
      step 2 0 _ _ c2 h2]
    simp [doGetAux]
  · intro c0 b h0 h1
    rw [doGet, maxRetries, step 0 2 none [] c0 h0]
    simp [doGetAux, h1]

def c4auth : Nat → Outcome := fun _ => .resp 401 "denied" true

def c4bad : Nat → Outcome := fun _ => .resp 400 "oops" true

def c4odd : Nat → Outcome := fun _ => .resp 404 "not found" true

def c4net : Nat → Outcome := fun _ => .net "connection refused"

def c4rec : Nat → Outcome := fun a =>
  if a = 0 then .net "connection refused" else .resp 200 "body" true

/-- Witness for C4 exercising all five branches of the retry policy at
concrete outcome sequences. -/
theorem doGet_retry_policy_witness :
    doGet c4auth = (.authFailed, 1, []) ∧
    doGet c4bad = (.badRequest "oops", 1, []) ∧
    doGet c4odd = (.unexpectedStatus 404 "not found", 1, []) ∧
    doGet c4net = (.exhausted (some (.net "connection refused")), 3, [2, 4]) ∧
    doGet c4rec = (.ok, 2, [2]) :=
  ⟨(doGet_retry_policy c4auth).1 "denied" true rfl,
   (doGet_retry_policy c4bad).2.1 "oops" true rfl,
   (doGet_retry_policy c4odd).2.2.1 404 "not found" true rfl (by decide)
     (by decide) (by decide) (by decide),
   (doGet_retry_policy c4net).2.2.2.1 (.net "connection refused")
     (.net "connection refused") (.net "connection refused") rfl rfl rfl,
   (doGet_retry_policy c4rec).2.2.2.2 (.net "connection refused") "body"
     rfl rfl⟩

/-! ## C5 -/

theorem rateLimit_stamp_ge (l now : Nat) :
    l + requestDelayMs ≤ rateLimit (some l) now := by
  show l + requestDelayMs ≤
    if now - l < requestDelayMs then l + requestDelayMs else now
  by_cases h : now - l < requestDelayMs
  · rw [if_pos h]
  · rw [if_neg h]
    simp only [requestDelayMs] at h ⊢
    omega

theorem clientTrace_stamps_chain (calls : List CallSpec) (l t : Nat) :
    List.Chain (fun a b => a + requestDelayMs ≤ b) l
      (clientTrace (some l) t calls).2 := by
  induction calls generalizing l t with
  | nil => exact List.Chain.nil
  | cons cs rest ih =>
    simp only [clientTrace]
    exact List.Chain.cons (rateLimit_stamp_ge l t) (ih _ _)

/-- C5, amended: the request issue times that `rateLimit` governs — the
first attempt of each doGet call, stamped into `c.lastReq` — are always
at least `requestDelay` apart.  (The claim as stated, over all attempts
including doGet-internal retries, is refuted by
`rateLimit_spacing_counterexample`.) -/
theorem rateLimit_stamped_spacing (calls : List CallSpec) (t0 : Nat) :
    List.Chain' (fun a b => a + requestDelayMs ≤ b)
      (clientTrace none t0 calls).2 := by
  cases calls with
  | nil => exact List.chain'_nil
  | cons cs rest =>
    simp only [clientTrace, rateLimit]
    exact clientTrace_stamps_chain rest t0 _

/-- A doGet call whose three attempts all fail instantly at the network
level (durations 0): attempts at its start time `s`, `s + 2000` ms and
`s + 6000` ms. -/
def c5failing : CallSpec :=
  { out := fun _ => .net "connection refused", dur := fun _ => 0 }

/-- An immediately-following successful doGet call. -/
def c5ok : CallSpec :=
  { out := fun _ => .resp 200 "body" true, dur := fun _ => 0 }

/-- Counterexample to C5 as stated: with retry attempts counted, the
client issues the third (last) retry attempt of the first doGet call
and the first attempt of the next doGet call at the same instant
(6000 ms) — closer than the 200 ms minimum spacing.  The rate limiter
stamps `lastReq` only once per doGet call, so the elapsed time it
checks (6000 ms) already exceeds the minimum. -/
theorem rateLimit_spacing_counterexample :
    (clientTrace none 0 [c5failing, c5ok]).1 = [0, 2000, 6000, 6000] ∧
    ¬ List.Chain' (fun a b => a + requestDelayMs ≤ b)
      (clientTrace none 0 [c5failing, c5ok]).1 := by
  constructor
  · rfl
  · intro h
    rw [show (clientTrace none 0 [c5failing, c5ok]).1 = [0, 2000, 6000, 6000]
      from rfl] at h
    norm_num [List.chain'_cons, requestDelayMs] at h

/-! ## C6 -/

theorem bucketGet_bucketAdd (m : List (String × List Trade)) (k k1 : String)
    (t : Trade) :
    bucketGet (bucketAdd m k t) k1 =
      if k1 = k then bucketGet m k ++ [t] else bucketGet m k1 := by
  induction m with
  | nil =>
    by_cases h : k1 = k
    · subst h
      simp [bucketAdd, bucketGet]
    · simp [bucketAdd, bucketGet, h, Ne.symm h]
  | cons p rest ih =>
    obtain ⟨k2, ts⟩ := p
    by_cases h2 : k2 = k
    · subst h2
      by_cases h1 : k1 = k2
      · subst h1
        simp [bucketAdd, bucketGet]
      · simp [bucketAdd, bucketGet, h1, Ne.symm h1]
    · by_cases h1 : k1 = k2
      · subst h1
        simp [bucketAdd, bucketGet, h2, Ne.symm h2]
      · simp [bucketAdd, bucketGet, h2, h1, Ne.symm h1, ih]

theorem keys_bucketAdd (m : List (String × List Trade)) (k : String) (t : Trade) :
    (bucketAdd m k t).map Prod.fst =
      if k ∈ m.map Prod.fst then m.map Prod.fst else m.map Prod.fst ++ [k] := by
  induction m with
  | nil => simp [bucketAdd]
  | cons p rest ih =>
    obtain ⟨k2, ts⟩ := p
    by_cases h2 : k2 = k
    · subst h2
      simp [bucketAdd]
    · simp only [bucketAdd, if_neg h2, List.map_cons, List.mem_cons, ih]
      by_cases hk : k ∈ rest.map Prod.fst
      · simp [hk, Ne.symm h2]
      · simp [hk, Ne.symm h2]

theorem nodup_keys_bucketAdd (m : List (String × List Trade)) (k : String)
    (t : Trade) (h : (m.map Prod.fst).Nodup) :
    ((bucketAdd m k t).map Prod.fst).Nodup := by
  rw [keys_bucketAdd]
  by_cases hk : k ∈ m.map Prod.fst
  · rwa [if_pos hk]
  · rw [if_neg hk]
    simp [List.nodup_append, h, hk]

/-- The single fold step of groupTradesByDate. -/
def groupStep (pd : String → Option Date) (m : List (String × List Trade))
    (t : Trade) : List (String × List Trade) :=
  match pd t.startDatetime with
  | none => m
  | some d => bucketAdd m (formatFileDate d) t

theorem groupTradesByDate_eq_foldl (pd : String → Option Date)
    (ts : List Trade) :
    groupTradesByDate pd ts = ts.foldl (groupStep pd) [] := by
  rfl

theorem foldl_groupStep_get (pd : String → Option Date) (ts : List Trade) :
    ∀ (init : List (String × List Trade)) (k : String),
      bucketGet (ts.foldl (groupStep pd) init) k =
        bucketGet init k ++
          ts.filter (fun t => decide (keyOf pd t = some k)) := by
  induction ts with
  | nil => simp
  | cons t rest ih =>
    intro init k
    rw [List.foldl_cons, ih]
    unfold groupStep keyOf
    cases hpd : pd t.startDatetime with
    | none => simp [hpd]
    | some d =>
      rw [bucketGet_bucketAdd]
      by_cases hk : k = formatFileDate d
      · simp [hk, hpd, List.filter_cons]
      · simp [hk, hpd, List.filter_cons, Ne.symm hk]

theorem foldl_groupStep_nodup (pd : String → Option Date) (ts : List Trade) :
    ∀ (init : List (String × List Trade)),
      ((init.map Prod.fst).Nodup) →
      ((ts.foldl (groupStep pd) init).map Prod.fst).Nodup := by
  induction ts with
  | nil => exact fun init h => h
  | cons t rest ih =>
    intro init hinit
    rw [List.foldl_cons]
    apply ih
    unfold groupStep
    cases hpd : pd t.startDatetime with
    | none => exact hinit
    | some d => exact nodup_keys_bucketAdd init (formatFileDate d) t hinit

/-- C6: groupTradesByDate partitions the parseable trades — each bucket
`k` is exactly the sublist of input trades whose parsed
reference-timezone date formats to `k` (so every parseable trade is in
exactly one bucket, counted with multiplicity), bucket keys are
distinct, a trade with an unparseable start datetime is in no bucket,
and the grouping is total (it never fails).  Stated for every date
parser `pd`, hence for the real `parseTradeDate`. -/
theorem groupTradesByDate_partition (pd : String → Option Date)
    (ts : List Trade) :
    (∀ k, bucketGet (groupTradesByDate pd ts) k =
      ts.filter (fun t => decide (keyOf pd t = some k))) ∧
    ((groupTradesByDate pd ts).map Prod.fst).Nodup ∧
    (∀ t ∈ ts, ∀ d, pd t.startDatetime = some d →
      t ∈ bucketGet (groupTradesByDate pd ts) (formatFileDate d) ∧
      ∀ k, t ∈ bucketGet (groupTradesByDate pd ts) k → k = formatFileDate d) ∧
    (∀ t, pd t.startDatetime = none →
      ∀ k, t ∉ bucketGet (groupTradesByDate pd ts) k) := by
  have hget : ∀ k, bucketGet (groupTradesByDate pd ts) k =
      ts.filter (fun t => decide (keyOf pd t = some k)) := by
    intro k
    rw [groupTradesByDate_eq_foldl, foldl_groupStep_get]
    simp [bucketGet]
  refine ⟨hget, ?_, ?_, ?_⟩
  · rw [groupTradesByDate_eq_foldl]
    exact foldl_groupStep_nodup pd ts [] (by simp)
  · intro t ht d hpd
    constructor
    · rw [hget, List.mem_filter]
      exact ⟨ht, by simp [keyOf, hpd]⟩
    · intro k hk
      rw [hget, List.mem_filter] at hk
      have := of_decide_eq_true hk.2
      rw [keyOf, hpd] at this
      simpa using this.symm
  · intro t hpd k hk
    rw [hget, List.mem_filter] at hk
    have := of_decide_eq_true hk.2
    rw [keyOf, hpd] at this
    simp at this

def c6good : Trade := { id := 1, startDatetime := "2025-01-02" }

def c6bad : Trade := { id := 2, startDatetime := "garbage" }

/-- Witness for C6: a parseable trade lands in exactly its own date
bucket; the unparseable one is dropped from every bucket. -/
theorem groupTradesByDate_partition_witness :
    (c6good ∈ bucketGet (groupTradesByDate parseFileDate [c6good, c6bad])
      "2025-01-02" ∧
     ∀ k, c6good ∈ bucketGet (groupTradesByDate parseFileDate [c6good, c6bad]) k →
       k = "2025-01-02") ∧
    (∀ k, c6bad ∉ bucketGet (groupTradesByDate parseFileDate [c6good, c6bad]) k) :=
  ⟨(groupTradesByDate_partition parseFileDate [c6good, c6bad]).2.2.1 c6good
     (by decide) ⟨2025, 1, 2⟩ (by decide),
   (groupTradesByDate_partition parseFileDate [c6good, c6bad]).2.2.2 c6bad
     (by decide)⟩

/-! ## Orchestrator structural lemmas -/

/-- Every branch of `Run`'s body either returns nil or produces no
cursor update: the saveState write happens only after the whole per-day
loop (and saveState itself) succeeded. -/
theorem runPersist_err_or_upd (env : Env) (opts : Options)
    (allTrades : List Trade) (archv : List (String × DayExport))
    (state : Option ExportState) :
    (runPersist env opts allTrades archv state).err = none ∨
    (runPersist env opts allTrades archv state).stateUpd = none := by
  unfold runPersist
  repeat' split
  all_goals first
    | exact Or.inl rfl
    | exact Or.inr rfl

theorem runBody_err_or_upd (env : Env) (opts : Options)
    (archv : List (String × DayExport)) (state : Option ExportState) :
    (runBody env opts archv state).err = none ∨
    (runBody env opts archv state).stateUpd = none := by
  unfold runBody
  repeat' split
  all_goals first
    | exact Or.inl rfl
    | exact Or.inr rfl
    | apply runPersist_err_or_upd

theorem runBody_err_stateUpd (env : Env) (opts : Options)
    (archv : List (String × DayExport)) (state : Option ExportState) :
    ((runBody env opts archv state).err).isSome = true →
    (runBody env opts archv state).stateUpd = none := by
  intro hsome
  rcases runBody_err_or_upd env opts archv state with h | h
  · rw [h] at hsome
    exact absurd hsome (by simp)
  · exact h

theorem runExport_err_stateFile (env : Env) (opts : Options) (w : World) :
    ((runExport env opts w).2).isSome = true →
    (runExport env opts w).1.stateFile = w.stateFile := by
  intro hsome
  have h := runBody_err_stateUpd env opts w.archives (loadState w.stateFile)
  simp only [runExport] at hsome ⊢
  rw [h hsome]

/-! ## C1 -/

/-- C1: the cursor update is all-or-nothing per run.  (i) Whenever `Run`
returns an error — in particular on any fetch-phase or saveDayExport
failure — the persisted cursor file is exactly what it was before the
run.  (ii) A fetch-phase failure is propagated as `Run`'s error with the
cursor untouched.  (iii) A saveDayExport failure inside the per-day loop
is propagated as `Run`'s error with the cursor untouched. -/
theorem run_state_all_or_nothing (env : Env) (opts : Options) (w : World) :
    (((runExport env opts w).2).isSome = true →
      (runExport env opts w).1.stateFile = w.stateFile) ∧
    (∀ sd ed e, env.mkdir = none →
      resolveStart env opts (loadState w.stateFile) = .ok sd →
      resolveEnd env opts = .ok ed →
      dateLt ed sd = false →
      env.fetch sd ed = .error e →
      (runExport env opts w).2 = some (.fetch e) ∧
      (runExport env opts w).1.stateFile = w.stateFile) ∧
    (∀ sd ed trades er, env.mkdir = none →
      resolveStart env opts (loadState w.stateFile) = .ok sd →
      resolveEnd env opts = .ok ed →
      dateLt ed sd = false →
      env.fetch sd ed = .ok trades →
      (persistDays env opts (groupTradesByDate env.parseDate trades)
        (sortStrings ((groupTradesByDate env.parseDate trades).map Prod.fst))
        w.archives).2 = some er →
      (runExport env opts w).2 = some er ∧
      (runExport env opts w).1.stateFile = w.stateFile) := by
  refine ⟨runExport_err_stateFile env opts w, ?_, ?_⟩
  · intro sd ed e hmk hrs hre hlt hf
    have herr : (runExport env opts w).2 = some (.fetch e) := by
      simp [runExport, runBody, hmk, hrs, hre, hlt, hf]
    exact ⟨herr, runExport_err_stateFile env opts w (by rw [herr]; rfl)⟩
  · intro sd ed trades er hmk hrs hre hlt hf hp
    have hne : trades.isEmpty = false := by
      cases htr : trades with
      | nil =>
        rw [htr] at hp
        simp [groupTradesByDate, sortStrings, insertionSortBy, persistDays] at hp
      | cons a l => rfl
    cases hd : sortStrings ((groupTradesByDate env.parseDate trades).map
        Prod.fst) with
    | nil =>
      rw [hd] at hp
      simp [persistDays] at hp
    | cons d0 rest =>
      rw [hd] at hp
      rcases hpd : persistDays env opts (groupTradesByDate env.parseDate trades)
          (d0 :: rest) w.archives with ⟨A1, oe⟩
      rw [hpd] at hp
      simp only at hp
      subst hp
      have herr : (runExport env opts w).2 = some er := by
        simp [runExport, runBody, runPersist, hmk, hrs, hre, hlt, hf, hne, hd,
          hpd]
      exact ⟨herr, runExport_err_stateFile env opts w (by rw [herr]; rfl)⟩

def c1trade : Trade := { id := 7, startDatetime := "2025-03-05" }

/-- An environment whose fetch phase fails. -/
def c1envFetchFail : Env :=
  { discover := .ok ⟨2025, 3, 5⟩
    fetch := fun _ _ => .error "server error (HTTP 500)"
    parseDate := parseFileDate
    now := ⟨2025, 3, 6⟩ }

/-- An environment whose saveDayExport fails for every date. -/
def c1envSaveFail : Env :=
  { discover := .ok ⟨2025, 3, 5⟩
    fetch := fun _ _ => .ok [c1trade]
    parseDate := parseFileDate
    saveDay := fun _ => some "disk full"
    now := ⟨2025, 3, 6⟩ }

def c1state : ExportState :=
  { lastExportDate := "2025-03-01", firstTradeDate := "2025-02-01"
    totalTrades := 10, totalDays := 3, lastRunAt := 77 }

def c1world : World := { stateFile := .parsed c1state, archives := [] }

/-- Witness for C1: a failing fetch and a failing per-day write both
propagate their error and leave the persisted cursor untouched. -/
theorem run_state_all_or_nothing_witness :
    ((runExport c1envFetchFail {} c1world).2 =
        some (.fetch "server error (HTTP 500)") ∧
      (runExport c1envFetchFail {} c1world).1.stateFile =
        .parsed c1state) ∧
    ((runExport c1envSaveFail {} c1world).2 =
        some (.saveDay "2025-03-05" "disk full") ∧
      (runExport c1envSaveFail {} c1world).1.stateFile =
        .parsed c1state) :=
  ⟨(run_state_all_or_nothing c1envFetchFail {} c1world).2.1
      ⟨2025, 3, 2⟩ ⟨2025, 3, 6⟩ "server error (HTTP 500)"
      rfl rfl rfl (by decide) rfl,
   (run_state_all_or_nothing c1envSaveFail {} c1world).2.2
      ⟨2025, 3, 2⟩ ⟨2025, 3, 6⟩ [c1trade]
      (.saveDay "2025-03-05" "disk full")
      rfl rfl rfl (by decide) rfl (by decide)⟩

/-! ## C7 -/

/-- persistDays can only fail through a saveDayExport I/O error: an
execution-fetch failure never produces a run error. -/
theorem persistDays_err_shape (env : Env) (opts : Options)
    (byDate : List (String × List Trade)) :
    ∀ (dates : List String) (archv : List (String × DayExport)) (er : RunErr),
      (persistDays env opts byDate dates archv).2 = some er →
      ∃ d e, d ∈ dates ∧ er = .saveDay d e ∧ env.saveDay d = some e := by
  intro dates
  induction dates with
  | nil =>
    intro archv er h
    simp [persistDays] at h
  | cons d rest ih =>
    intro archv er h
    unfold persistDays at h
    cases hs : env.saveDay d with
    | some e =>
      rw [hs] at h
      simp at h
      exact ⟨d, e, by simp, h.symm, hs⟩
    | none =>
      rw [hs] at h
      obtain ⟨d1, e1, hmem, her, hse⟩ := ih _ er h
      exact ⟨d1, e1, by simp [hmem], her, hse⟩

def c7t1 : Trade := { id := 1, startDatetime := "2025-04-01" }

def c7t2 : Trade := { id := 2, startDatetime := "2025-04-01" }

def c7exec : Execution := { id := 11, symbol := "AAPL", quantity := 100 }

/-- Execution fetch succeeds (nonempty) for trade 1, fails for trade 2. -/
def c7env : Env :=
  { discover := .ok ⟨2025, 4, 1⟩
    fetch := fun _ _ => .ok [c7t1, c7t2]
    parseDate := parseFileDate
    getExec := fun i => if i = 1 then .ok [c7exec] else .error "boom"
    now := ⟨2025, 4, 1⟩
    nowTS := 500 }

def c7opts : Options := { withExecutions := true }

def c7world : World := { stateFile := .absent, archives := [] }

/-- Counterexample to C7 as stated: only trade 2's execution fetch
fails, yet the day's archive is written with NO executions at all
(`executions = none`) — trade 1's successfully fetched, nonempty
execution list is dropped too, not just the failing record's.  The run
still succeeds. -/
theorem exec_failure_drops_whole_day_counterexample :
    (runExport c7env c7opts c7world).2 = none ∧
    c7env.getExec 1 = .ok [c7exec] ∧
    fetchExecutionsForTrades c7env.getExec [c7t1, c7t2] =
      .error "fetching executions for trade 2: boom" ∧
    lookupArchive (runExport c7env c7opts c7world).1.archives "2025-04-01" =
      some { date := "2025-04-01", trades := [c7t1, c7t2],
             executions := none, journal := none, exportedAt := 500 } :=
  ⟨by decide, rfl, rfl, by decide⟩

/-- C7, amended: when sub-record fetching is requested and any record's
sub-record fetch for a day fails, the failure is non-fatal — the day's
archive is still built and written with its trades intact but with no
sub-records at all for that day (the whole day's enrichment is
dropped, not just the failing record's) — and the per-day loop can only
abort through a saveDayExport I/O error, never through an
execution-fetch failure. -/
theorem exec_failure_nonfatal (env : Env) (opts : Options) :
    (∀ date trades e, opts.withExecutions = true →
      fetchExecutionsForTrades env.getExec trades = .error e →
      mkDay env opts date trades =
        { date := date, trades := trades, executions := none,
          journal := none, exportedAt := env.nowTS }) ∧
    (∀ byDate dates archv er,
      (persistDays env opts byDate dates archv).2 = some er →
      ∃ d e, d ∈ dates ∧ er = .saveDay d e ∧ env.saveDay d = some e) := by
  constructor
  · intro date trades e hwe hf
    simp [mkDay, hwe, hf]
  · intro byDate dates archv er h
    exact persistDays_err_shape env opts byDate dates archv er h

def c7envSave : Env := { c7env with saveDay := fun _ => some "disk full" }

/-- Witness for C7 (amended) at the concrete inputs of the
counterexample, plus a failing save showing the only fatal error shape. -/
theorem exec_failure_nonfatal_witness :
    mkDay c7env c7opts "2025-04-01" [c7t1, c7t2] =
      { date := "2025-04-01", trades := [c7t1, c7t2], executions := none,
        journal := none, exportedAt := 500 } ∧
    ∃ d e, d ∈ ["2025-04-01"] ∧
      (RunErr.saveDay "2025-04-01" "disk full" : RunErr) = .saveDay d e ∧
      c7envSave.saveDay d = some e :=
  ⟨(exec_failure_nonfatal c7env c7opts).1 "2025-04-01" [c7t1, c7t2]
      "fetching executions for trade 2: boom" rfl rfl,
   (exec_failure_nonfatal c7envSave c7opts).2
      (groupTradesByDate parseFileDate [c7t1, c7t2]) ["2025-04-01"] []
      (.saveDay "2025-04-01" "disk full") (by decide)⟩

/-! ## C9 -/

/-- A cursor update produced by a run always carries the run's
timestamp (`state.LastRunAt = time.Now()`). -/
theorem runPersist_stateUpd_lastRun (env : Env) (opts : Options)
    (allTrades : List Trade) (archv : List (String × DayExport))
    (state : Option ExportState) (s : ExportState) :
    (runPersist env opts allTrades archv state).stateUpd = some s →
    s.lastRunAt = env.nowTS := by
  unfold runPersist
  repeat' split
  all_goals intro h
  all_goals first
    | (subst h; rfl)
    | (injection h with h2; subst h2; rfl)
    | simp_all

theorem runBody_stateUpd_lastRun (env : Env) (opts : Options)
    (archv : List (String × DayExport)) (state : Option ExportState)
    (s : ExportState) :
    (runBody env opts archv state).stateUpd = some s →
    s.lastRunAt = env.nowTS := by
  unfold runBody
  repeat' split
  all_goals intro h
  all_goals first
    | exact runPersist_stateUpd_lastRun env opts _ _ _ _ h
    | simp_all

/-- In the persist phase there is no silent outcome: either an error is
returned or the cursor update is produced. -/
theorem runPersist_not_noop (env : Env) (opts : Options)
    (allTrades : List Trade) (archv : List (String × DayExport))
    (state : Option ExportState) :
    (runPersist env opts allTrades archv state).err = none →
    (runPersist env opts allTrades archv state).stateUpd = none → False := by
  unfold runPersist
  repeat' split
  all_goals intro h1 h2
  all_goals simp_all

/-- A successful run that produced no cursor update wrote nothing: only
the early exits (up to date / no trades) return nil without saving. -/
theorem runBody_noop (env : Env) (opts : Options)
    (archv : List (String × DayExport)) (state : Option ExportState) :
    (runBody env opts archv state).err = none →
    (runBody env opts archv state).stateUpd = none →
    (runBody env opts archv state).archives = archv := by
  unfold runBody
  repeat' split
  all_goals intro h1 h2
  all_goals first
    | exact (runPersist_not_noop env opts _ _ _ h1 h2).elim
    | simp_all

def c9state : ExportState :=
  { lastExportDate := "2025-05-10", firstTradeDate := "2025-05-01"
    totalTrades := 5, totalDays := 2, lastRunAt := 100 }

def c9env : Env :=
  { discover := .error "unused"
    fetch := fun _ _ => .ok []
    parseDate := parseFileDate
    now := ⟨2025, 5, 10⟩
    nowTS := 999 }

def c9world : World := { stateFile := .parsed c9state, archives := [] }

/-- Counterexample to C9 as stated: a successful run (start resolves to
the day after the cursor, which is after today, so `Run` logs "Already
up to date" and returns nil) that does NOT update the cursor: the
persisted last-run timestamp stays 100 while the run's clock is 999. -/
theorem state_not_updated_on_uptodate_run :
    (runExport c9env {} c9world).2 = none ∧
    (runExport c9env {} c9world).1 = c9world ∧
    c9state.lastRunAt = 100 ∧
    c9env.nowTS = 999 :=
  ⟨by decide, by decide, rfl, rfl⟩

/-- C9, amended: the cursor file is never deleted — after any run it is
either exactly what it was or a parsed cursor stamped with the run's
timestamp — and it is created/updated (with its last-run timestamp) at
the end of every successful run that wrote at least one archive.  Runs
that succeed with nothing to export leave it untouched. -/
theorem state_update_on_export (env : Env) (opts : Options) (w : World) :
    ((runExport env opts w).1.stateFile = w.stateFile ∨
      ∃ s, (runExport env opts w).1.stateFile = .parsed s ∧
        s.lastRunAt = env.nowTS) ∧
    ((runExport env opts w).2 = none →
      (runExport env opts w).1.archives ≠ w.archives →
      ∃ s, (runExport env opts w).1.stateFile = .parsed s ∧
        s.lastRunAt = env.nowTS) := by
  constructor
  · cases hupd : (runBody env opts w.archives (loadState w.stateFile)).stateUpd with
    | none =>
      left
      simp only [runExport, hupd]
    | some s =>
      right
      refine ⟨s, ?_, runBody_stateUpd_lastRun env opts _ _ s hupd⟩
      simp only [runExport, hupd]
  · intro herr harch
    cases hupd : (runBody env opts w.archives (loadState w.stateFile)).stateUpd with
    | none =>
      exfalso
      apply harch
      have h1 : (runBody env opts w.archives (loadState w.stateFile)).err = none := by
        simpa only [runExport] using herr
      have := runBody_noop env opts w.archives (loadState w.stateFile) h1 hupd
      simpa only [runExport] using this
    | some s =>
      refine ⟨s, ?_, runBody_stateUpd_lastRun env opts _ _ s hupd⟩
      simp only [runExport, hupd]

def c9envExport : Env :=
  { discover := .ok ⟨2025, 5, 11⟩
    fetch := fun _ _ => .ok [{ id := 3, startDatetime := "2025-05-11" }]
    parseDate := parseFileDate
    now := ⟨2025, 5, 11⟩
    nowTS := 999 }

/-- Witness for C9 (amended): a run that exports one day saves a cursor
stamped with the run's clock. -/
theorem state_update_on_export_witness :
    ((runExport c9envExport {} c9world).1.stateFile = c9world.stateFile ∨
      ∃ s, (runExport c9envExport {} c9world).1.stateFile = .parsed s ∧
        s.lastRunAt = c9envExport.nowTS) ∧
    (∃ s, (runExport c9envExport {} c9world).1.stateFile = .parsed s ∧
      s.lastRunAt = c9envExport.nowTS) :=
  ⟨(state_update_on_export c9envExport {} c9world).1,
   (state_update_on_export c9envExport {} c9world).2 (by decide) (by decide)⟩

/-! ## String-order lemmas for the cursor-monotonicity claim -/

theorem charToNat_inj {a b : Char} (h : a.toNat = b.toNat) : a = b :=
  Char.eq_of_val_eq (UInt32.ext h)

theorem charsLt_irrefl (l : List Char) : charsLt l l = false := by
  induction l with
  | nil => rfl
  | cons a as ih => simp [charsLt, ih]

theorem charsLt_trans :
    ∀ (a b c : List Char), charsLt a b = true → charsLt b c = true →
      charsLt a c = true := by
  intro a
  induction a with
  | nil =>
    intro b c _ hbc
    cases c with
    | nil =>
      cases b with
      | nil => simp [charsLt] at hbc
      | cons y ys => simp [charsLt] at hbc
    | cons z zs => simp [charsLt]
  | cons x xs ih =>
    intro b c hab hbc
    cases b with
    | nil => simp [charsLt] at hab
    | cons y ys =>
      cases c with
      | nil => simp [charsLt] at hbc
      | cons z zs =>
        simp only [charsLt] at hab hbc ⊢
        by_cases hxy : x.toNat < y.toNat
        · by_cases hyz : y.toNat < z.toNat
          · simp [show x.toNat < z.toNat by omega]
          · simp only [hyz, if_false] at hbc
            by_cases hzy : z.toNat < y.toNat
            · simp [hzy] at hbc
            · simp [show x.toNat < z.toNat by omega]
        · simp only [hxy, if_false] at hab
          by_cases hyx : y.toNat < x.toNat
          · simp [hyx] at hab
          · have hxyeq : x.toNat = y.toNat := by omega
            by_cases hyz : y.toNat < z.toNat
            · simp [show x.toNat < z.toNat by omega]
            · simp only [hyz, if_false] at hbc
              by_cases hzy : z.toNat < y.toNat
              · simp [hzy] at hbc
              · have hxz1 : ¬ x.toNat < z.toNat := by omega
                have hxz2 : ¬ z.toNat < x.toNat := by omega
                simp only [hxz1, hxz2, if_false]
                simp only [hyx, if_false] at hab
                simp only [hzy, if_false] at hbc
                exact ih ys zs hab hbc

theorem charsLt_connex :
    ∀ (a b : List Char), charsLt a b = false → charsLt b a = false → a = b := by
  intro a
  induction a with
  | nil =>
    intro b hab _
    cases b with
    | nil => rfl
    | cons y ys => simp [charsLt] at hab
  | cons x xs ih =>
    intro b hab hba
    cases b with
    | nil => simp [charsLt] at hba
    | cons y ys =>
      simp only [charsLt] at hab hba
      by_cases hxy : x.toNat < y.toNat
      · simp [hxy] at hab
      · by_cases hyx : y.toNat < x.toNat
        · simp [hyx] at hba
        · have hxyeq : x.toNat = y.toNat := by omega
          simp only [hxy, hyx, if_false] at hab hba
          rw [charToNat_inj hxyeq, ih ys hab hba]

theorem strLt_asymm (a b : String) (h : strLt a b = true) :
    strLt b a = false := by
  cases hba : strLt b a with
  | false => rfl
  | true =>
    unfold strLt at h hba
    have := charsLt_trans _ _ _ h hba
    rw [charsLt_irrefl] at this
    exact absurd this (by simp)

theorem strLe_refl (a : String) : strLe a a = true := by
  unfold strLe strLt
  rw [charsLt_irrefl]
  rfl

theorem strLe_of_strLt (a b : String) (h : strLt a b = true) :
    strLe a b = true := by
  unfold strLe
  rw [strLt_asymm a b h]
  rfl

theorem strLe_trans (a b c : String) (hab : strLe a b = true)
    (hbc : strLe b c = true) : strLe a c = true := by
  unfold strLe strLt at hab hbc ⊢
  cases hca : charsLt c.data a.data with
  | false => rfl
  | true =>
    exfalso
    have hba : charsLt b.data a.data = false := by
      cases h : charsLt b.data a.data with
      | false => rfl
      | true => rw [h] at hab; exact absurd hab (by simp)
    have hcb : charsLt c.data b.data = false := by
      cases h : charsLt c.data b.data with
      | false => rfl
      | true => rw [h] at hbc; exact absurd hbc (by simp)
    -- from ¬(b<a), ¬(c<b) and c<a derive a contradiction via connexity
    by_cases hbc2 : charsLt b.data c.data = true
    · have hac : charsLt b.data a.data = true := charsLt_trans _ _ _ hbc2 hca
      rw [hac] at hba
      exact absurd hba (by simp)
    · have hbceq : b.data = c.data :=
        charsLt_connex _ _ (by simpa using hbc2) hcb
      rw [← hbceq] at hca
      rw [hca] at hba
      exact absurd hba (by simp)

/-! ## C8 -/

theorem lookupArchive_setArchive (A : List (String × DayExport)) (k : String)
    (v : DayExport) (k1 : String) :
    lookupArchive (setArchive A k v) k1 =
      if k1 = k then some v else lookupArchive A k1 := by
  induction A with
  | nil =>
    by_cases h : k1 = k
    · subst h
      simp [setArchive, lookupArchive]
    · simp [setArchive, lookupArchive, h, Ne.symm h]
  | cons p rest ih =>
    obtain ⟨k2, d⟩ := p
    by_cases h2 : k2 = k
    · subst h2
      by_cases h1 : k1 = k2
      · subst h1
        simp [setArchive, lookupArchive]
      · simp [setArchive, lookupArchive, h1, Ne.symm h1]
    · by_cases h1 : k1 = k2
      · subst h1
        simp [setArchive, lookupArchive, h2, Ne.symm h2]
      · simp [setArchive, lookupArchive, h2, h1, Ne.symm h1, ih]

theorem persistDays_lookup_isSome (env : Env) (opts : Options)
    (byDate : List (String × List Trade)) :
    ∀ (dates : List String) (archv A1 : List (String × DayExport))
      (oe : Option RunErr),
      persistDays env opts byDate dates archv = (A1, oe) →
      ∀ k, (lookupArchive archv k).isSome = true →
        (lookupArchive A1 k).isSome = true := by
  intro dates
  induction dates with
  | nil =>
    intro archv A1 oe h k hk
    unfold persistDays at h
    injection h with h1 h2
    rw [← h1]
    exact hk
  | cons d rest ih =>
    intro archv A1 oe h k hk
    unfold persistDays at h
    cases hs : env.saveDay d with
    | some e =>
      rw [hs] at h
      injection h with h1 h2
      rw [← h1]
      exact hk
    | none =>
      rw [hs] at h
      refine ih _ A1 oe h k ?_
      rw [lookupArchive_setArchive]
      by_cases hkd : k = d
      · simp [hkd]
      · rw [if_neg hkd]
        exact hk

theorem persistDays_mem_lookup (env : Env) (opts : Options)
    (byDate : List (String × List Trade)) :
    ∀ (dates : List String) (archv A1 : List (String × DayExport)),
      persistDays env opts byDate dates archv = (A1, none) →
      ∀ d ∈ dates, (lookupArchive A1 d).isSome = true := by
  intro dates
  induction dates with
  | nil =>
    intro archv A1 h d hd
    exact absurd hd (by simp)
  | cons d0 rest ih =>
    intro archv A1 h d hd
    unfold persistDays at h
    cases hs : env.saveDay d0 with
    | some e =>
      rw [hs] at h
      injection h with h1 h2
      exact absurd h2.symm (by simp)
    | none =>
      rw [hs] at h
      rcases List.mem_cons.mp hd with hd0 | hdr
      · subst hd0
        refine persistDays_lookup_isSome env opts byDate rest _ A1 none h d ?_
        rw [lookupArchive_setArchive]
        simp
      · exact ih _ A1 h d hdr

/-- A cursor update is only ever produced out of the persist phase. -/
theorem runBody_stateUpd_runPersist (env : Env) (opts : Options)
    (archv : List (String × DayExport)) (state : Option ExportState)
    (s : ExportState) :
    (runBody env opts archv state).stateUpd = some s →
    ∃ allTrades, runBody env opts archv state =
      runPersist env opts allTrades archv state := by
  unfold runBody
  repeat' split
  all_goals intro h
  all_goals first
    | exact absurd h (by simp)
    | exact ⟨_, rfl⟩

/-- Characterization of a successful cursor update: it is `updateState`
applied to the run's date list, and the per-day loop completed with all
archives written. -/
theorem runPersist_stateUpd_spec (env : Env) (opts : Options)
    (allTrades : List Trade) (archv : List (String × DayExport))
    (state : Option ExportState) (s : ExportState) :
    (runPersist env opts allTrades archv state).stateUpd = some s →
    ∃ d0 rest A1,
      persistDays env opts (groupTradesByDate env.parseDate allTrades)
        (d0 :: rest) archv = (A1, none) ∧
      (runPersist env opts allTrades archv state).archives = A1 ∧
      s = updateState (state.getD {}) d0 ((d0 :: rest).getLastD d0)
        (d0 :: rest).length
        (totalTradesOf (groupTradesByDate env.parseDate allTrades) (d0 :: rest))
        env.nowTS := by
  intro h
  cases hsort : sortStrings ((groupTradesByDate env.parseDate allTrades).map
      Prod.fst) with
  | nil =>
    have hrp : runPersist env opts allTrades archv state =
        ⟨archv, none, some .emptyDatesPanic⟩ := by
      simp only [runPersist, hsort]
    rw [hrp] at h
    exact absurd h (by simp)
  | cons d0 rest =>
    rcases hpd : persistDays env opts (groupTradesByDate env.parseDate allTrades)
        (d0 :: rest) archv with ⟨A1, oe⟩
    cases oe with
    | some er =>
      have hrp : runPersist env opts allTrades archv state =
          ⟨A1, none, some er⟩ := by
        simp only [runPersist, hsort, hpd]
      rw [hrp] at h
      exact absurd h (by simp)
    | none =>
      cases hsv : env.saveState with
      | some e =>
        have hrp : runPersist env opts allTrades archv state =
            ⟨A1, none, some (.saveState e)⟩ := by
          simp only [runPersist, hsort, hpd, hsv]
        rw [hrp] at h
        exact absurd h (by simp)
      | none =>
        have hrp : runPersist env opts allTrades archv state =
            ⟨A1,
             some (updateState (state.getD {}) d0 ((d0 :: rest).getLastD d0)
               (d0 :: rest).length
               (totalTradesOf (groupTradesByDate env.parseDate allTrades)
                 (d0 :: rest)) env.nowTS),
             none⟩ := by
          simp only [runPersist, hsort, hpd, hsv]
        rw [hrp] at h
        simp only [Option.some.injEq] at h
        exact ⟨d0, rest, A1, hpd, by rw [hrp], h.symm⟩

theorem updateState_last_mono (st : ExportState) (d0 dl : String)
    (nd nt now : Nat) :
    strLe st.lastExportDate (updateState st d0 dl nd nt now).lastExportDate =
      true := by
  unfold updateState
  dsimp only
  split
  · exact strLe_of_strLt _ _ (by assumption)
  · exact strLe_refl _

theorem updateState_first_cases (st : ExportState) (d0 dl : String)
    (nd nt now : Nat) (hne : st.firstTradeDate ≠ "") :
    (updateState st d0 dl nd nt now).firstTradeDate = st.firstTradeDate ∨
    ((updateState st d0 dl nd nt now).firstTradeDate = d0 ∧
      strLt d0 st.firstTradeDate = true) := by
  unfold updateState
  dsimp only
  split
  · rename_i hcond
    rcases hcond with he | hlt
    · exact absurd he hne
    · exact Or.inr ⟨rfl, hlt⟩
  · exact Or.inl rfl

/-- One run, starting from a parsed cursor: the resulting cursor is
parsed, the latest-export date never decreases, and the earliest date
either stays or drops to a date whose archive this run wrote. -/
theorem runExport_parsed_step (env : Env) (opts : Options) (w : World)
    (s0 : ExportState) (h0 : w.stateFile = .parsed s0) :
    ∃ s1, (runExport env opts w).1.stateFile = .parsed s1 ∧
      strLe s0.lastExportDate s1.lastExportDate = true ∧
      (s0.firstTradeDate ≠ "" →
        (s1.firstTradeDate = s0.firstTradeDate ∨
         (strLt s1.firstTradeDate s0.firstTradeDate = true ∧
          (lookupArchive (runExport env opts w).1.archives
            s1.firstTradeDate).isSome = true))) := by
  cases hupd : (runBody env opts w.archives (loadState w.stateFile)).stateUpd with
  | none =>
    refine ⟨s0, ?_, strLe_refl _, fun _ => Or.inl rfl⟩
    simp only [runExport, hupd]
    exact h0
  | some s =>
    obtain ⟨allTrades, heq⟩ :=
      runBody_stateUpd_runPersist env opts w.archives (loadState w.stateFile) s hupd
    have hupd2 : (runPersist env opts allTrades w.archives
        (loadState w.stateFile)).stateUpd = some s := by
      rw [← heq]
      exact hupd
    obtain ⟨d0, rest, A1, hpd, harch, hs⟩ :=
      runPersist_stateUpd_spec env opts allTrades w.archives
        (loadState w.stateFile) s hupd2
    have hst : (loadState w.stateFile).getD {} = s0 := by
      rw [h0]
      rfl
    rw [hst] at hs
    have hsf : (runExport env opts w).1.stateFile = .parsed s := by
      simp only [runExport, hupd]
    have harch2 : (runExport env opts w).1.archives = A1 := by
      simp only [runExport]
      rw [heq]
      exact harch
    refine ⟨s, hsf, ?_, ?_⟩
    · rw [hs]
      exact updateState_last_mono s0 d0 _ _ _ _
    · intro hne
      rcases updateState_first_cases s0 d0 ((d0 :: rest).getLastD d0)
          (d0 :: rest).length
          (totalTradesOf (groupTradesByDate env.parseDate allTrades)
            (d0 :: rest)) env.nowTS hne with hcase | ⟨hfd, hlt⟩
      · left
        rw [hs]
        exact hcase
      · right
        rw [hs, hfd, harch2]
        exact ⟨hlt, persistDays_mem_lookup env opts _ _ _ A1 hpd d0 (by simp)⟩

/-- Iterating runs from a parsed cursor keeps it parsed with a
non-decreasing latest-export date. -/
theorem runSeq_parsed_mono (runs : List (Env × Options)) :
    ∀ (w : World) (s0 : ExportState), w.stateFile = .parsed s0 →
      ∃ s1, (runSeq runs w).stateFile = .parsed s1 ∧
        strLe s0.lastExportDate s1.lastExportDate = true := by
  induction runs with
  | nil => exact fun w s0 h0 => ⟨s0, h0, strLe_refl _⟩
  | cons p rest ih =>
    intro w s0 h0
    obtain ⟨s1, h1, hle, _⟩ := runExport_parsed_step p.1 p.2 w s0 h0
    obtain ⟨s2, h2, hle2⟩ := ih (runExport p.1 p.2 w).1 s1 h1
    refine ⟨s2, ?_, strLe_trans _ _ _ hle hle2⟩
    simpa only [runSeq, List.foldl_cons] using h2

/-- C8: across any sequence of runs the cursor's latest exported date is
monotonically non-decreasing (the code never lowers it, even with an
explicit earlier window and the overwrite flag — the update takes a
maximum), and the earliest known date only changes by decreasing to a
date the run actually touched (its archive was written by that run). -/
theorem cursor_monotonicity :
    (∀ (env : Env) (opts : Options) (w : World) (s0 s1 : ExportState),
      w.stateFile = .parsed s0 →
      (runExport env opts w).1.stateFile = .parsed s1 →
      strLe s0.lastExportDate s1.lastExportDate = true ∧
      (s0.firstTradeDate ≠ "" →
        (s1.firstTradeDate = s0.firstTradeDate ∨
         (strLt s1.firstTradeDate s0.firstTradeDate = true ∧
          (lookupArchive (runExport env opts w).1.archives
            s1.firstTradeDate).isSome = true)))) ∧
    (∀ (runs : List (Env × Options)) (w : World) (s0 s1 : ExportState),
      w.stateFile = .parsed s0 →
      (runSeq runs w).stateFile = .parsed s1 →
      strLe s0.lastExportDate s1.lastExportDate = true) := by
  constructor
  · intro env opts w s0 s1 h0 h1
    obtain ⟨s1x, hsf, hle, hfirst⟩ := runExport_parsed_step env opts w s0 h0
    rw [h1] at hsf
    injection hsf with hinj
    subst hinj
    exact ⟨hle, hfirst⟩
  · intro runs w s0 s1 h0 h1
    obtain ⟨s1x, hsf, hle⟩ := runSeq_parsed_mono runs w s0 h0
    rw [h1] at hsf
    injection hsf with hinj
    subst hinj
    exact hle

/-- A run with an explicit earlier window (and overwrite) that touches a
date older than the stored earliest. -/
def c8env : Env :=
  { discover := .error "unused"
    fetch := fun _ _ => .ok [{ id := 4, startDatetime := "2025-04-30" }]
    parseDate := parseFileDate
    now := ⟨2025, 5, 10⟩
    nowTS := 1234 }

def c8opts : Options :=
  { fromDate := "2025-04-30", toDate := "2025-04-30", force := true }

def c8state1 : ExportState :=
  { lastExportDate := "2025-05-10", firstTradeDate := "2025-05-01"
    totalTrades := 5, totalDays := 2, lastRunAt := 100 }

def c8state2 : ExportState :=
  { lastExportDate := "2025-05-10", firstTradeDate := "2025-04-30"
    totalTrades := 6, totalDays := 3, lastRunAt := 1234 }

def c8world : World := { stateFile := .parsed c8state1, archives := [] }

/-- Witness for C8 at a concrete earlier-window overwrite run: the
latest date stays 2025-05-10 and the earliest drops to the newly
archived 2025-04-30. -/
theorem cursor_monotonicity_witness :
    (strLe c8state1.lastExportDate c8state2.lastExportDate = true ∧
      (c8state1.firstTradeDate ≠ "" →
        (c8state2.firstTradeDate = c8state1.firstTradeDate ∨
         (strLt c8state2.firstTradeDate c8state1.firstTradeDate = true ∧
          (lookupArchive (runExport c8env c8opts c8world).1.archives
            c8state2.firstTradeDate).isSome = true)))) ∧
    strLe c8state1.lastExportDate c8state2.lastExportDate = true :=
  ⟨cursor_monotonicity.1 c8env c8opts c8world c8state1 c8state2 rfl (by decide),
   cursor_monotonicity.2 [(c8env, c8opts)] c8world c8state1 c8state2 rfl
     (by decide)⟩

/-! ## C10 -/

/-- resolveStart raises the corrupt-state error only out of the
resumed-cursor branch, i.e. only for a loaded state whose stored
last-export date is non-empty but does not parse as yyyy-mm-dd. -/
theorem resolveStart_corrupt (env : Env) (opts : Options)
    (state : Option ExportState) :
    resolveStart env opts state = .error .corruptState →
    ∃ s, state = some s ∧ s.lastExportDate ≠ "" ∧
      parseFileDate s.lastExportDate = none := by
  unfold resolveStart
  repeat' split
  all_goals intro h
  all_goals simp_all

/-- resolveEnd never raises the corrupt-state error. -/
theorem resolveEnd_not_corrupt (env : Env) (opts : Options) :
    resolveEnd env opts ≠ .error .corruptState := by
  unfold resolveEnd
  repeat' split
  all_goals simp

theorem runPersist_not_corrupt (env : Env) (opts : Options)
    (allTrades : List Trade) (archv : List (String × DayExport))
    (state : Option ExportState) :
    (runPersist env opts allTrades archv state).err = some .corruptState →
    False := by
  intro h
  unfold runPersist at h
  cases hsort : sortStrings ((groupTradesByDate env.parseDate allTrades).map
      Prod.fst) with
  | nil => simp [hsort] at h
  | cons d0 rest =>
    simp only [hsort] at h
    rcases hpd : persistDays env opts (groupTradesByDate env.parseDate allTrades)
        (d0 :: rest) archv with ⟨A1, oe⟩
    rw [hpd] at h
    cases oe with
    | some er =>
      simp only [Option.some_inj] at h
      obtain ⟨d, e, _, her, _⟩ :=
        persistDays_err_shape env opts _ (d0 :: rest) archv er (by rw [hpd])
      rw [h] at her
      exact absurd her (by simp)
    | none =>
      cases hsv : env.saveState with
      | some e => simp [hsv] at h
      | none => simp [hsv] at h

theorem runBody_corrupt (env : Env) (opts : Options)
    (archv : List (String × DayExport)) (state : Option ExportState) :
    (runBody env opts archv state).err = some .corruptState →
    ∃ s, state = some s ∧ s.lastExportDate ≠ "" ∧
      parseFileDate s.lastExportDate = none := by
  unfold runBody
  repeat' split
  all_goals intro h
  all_goals try simp_all
  all_goals first
    | exact (runPersist_not_corrupt env opts _ _ _ h).elim
    | (rename_i heq
       exact resolveStart_corrupt env opts state heq)
    | (rename_i heq
       exact absurd heq (resolveEnd_not_corrupt env opts))

/-- C10: a missing, unreadable, or JSON-invalid cursor file is silently
treated as absent — `loadState` yields nil, an absent cursor (with no
explicit start date) sends the run through first-run discovery, and a
run with an unreadable/invalid cursor file behaves exactly like a run
with no cursor file (same error, same archives, cursor file rewritten
identically or left in place) — while the fatal "corrupt state file"
error occurs only when the file did parse as JSON but its stored
last-export date is not a valid yyyy-mm-dd date. -/
theorem state_load_error_tolerance :
    (∀ sf, sf = .absent ∨ sf = .unreadable ∨ sf = .badJSON →
      loadState sf = none) ∧
    (∀ (env : Env) (opts : Options) (state : Option ExportState),
      opts.fromDate = "" → state = none →
      resolveStart env opts state =
        (match env.discover with
         | .ok d => .ok d
         | .error e => .error (.discover e))) ∧
    (∀ (env : Env) (opts : Options) (archv : List (String × DayExport)) sf,
      sf = .unreadable ∨ sf = .badJSON →
      (runExport env opts ⟨sf, archv⟩).2 =
        (runExport env opts ⟨.absent, archv⟩).2 ∧
      (runExport env opts ⟨sf, archv⟩).1.archives =
        (runExport env opts ⟨.absent, archv⟩).1.archives ∧
      ((runExport env opts ⟨sf, archv⟩).1.stateFile = sf ∧
        (runExport env opts ⟨.absent, archv⟩).1.stateFile = .absent ∨
       (runExport env opts ⟨sf, archv⟩).1.stateFile =
        (runExport env opts ⟨.absent, archv⟩).1.stateFile)) ∧
    (∀ (env : Env) (opts : Options) (w : World),
      (runExport env opts w).2 = some .corruptState →
      ∃ s, w.stateFile = .parsed s ∧ s.lastExportDate ≠ "" ∧
        parseFileDate s.lastExportDate = none) := by
  refine ⟨?_, ?_, ?_, ?_⟩
  · intro sf h
    rcases h with h | h | h <;> subst h <;> rfl
  · intro env opts state hfrom hstate
    subst hstate
    unfold resolveStart
    rw [if_neg (by simp [hfrom])]
    cases env.discover <;> rfl
  · intro env opts archv sf hsf
    have hload : loadState sf = none := by
      rcases hsf with h | h <;> subst h <;> rfl
    have hbody : runBody env opts archv (loadState sf) =
        runBody env opts archv (loadState .absent) := by
      rw [hload]
      rfl
    refine ⟨?_, ?_, ?_⟩
    · simp only [runExport]
      rw [hbody]
    · simp only [runExport]
      rw [hbody]
    · simp only [runExport]
      rw [hbody]
      cases hupd : (runBody env opts archv (loadState StateFile.absent)).stateUpd with
      | none => exact Or.inl ⟨rfl, rfl⟩
      | some s => exact Or.inr rfl
  · intro env opts w h
    have hb : (runBody env opts w.archives (loadState w.stateFile)).err =
        some .corruptState := by
      simpa only [runExport] using h
    obtain ⟨s, hs, hne, hpf⟩ :=
      runBody_corrupt env opts w.archives (loadState w.stateFile) hb
    cases hsf : w.stateFile with
    | parsed s2 =>
      rw [hsf] at hs
      simp only [loadState, Option.some_inj] at hs
      subst hs
      exact ⟨s2, rfl, hne, hpf⟩
    | absent => rw [hsf] at hs; simp [loadState] at hs
    | unreadable => rw [hsf] at hs; simp [loadState] at hs
    | badJSON => rw [hsf] at hs; simp [loadState] at hs

def c10stateBadDate : ExportState :=
  { lastExportDate := "not-a-date", firstTradeDate := "", totalTrades := 1
    totalDays := 1, lastRunAt := 1 }

def c10env : Env :=
  { discover := .ok ⟨2025, 6, 1⟩
    fetch := fun _ _ => .ok []
    parseDate := parseFileDate
    now := ⟨2025, 6, 1⟩ }

/-- Witness for C10: an unreadable cursor file behaves as absent, an
absent cursor resolves the window through discovery, and a stored
invalid last-export date is exactly what triggers the corrupt-state
error. -/
theorem state_load_error_tolerance_witness :
    loadState .unreadable = none ∧
    resolveStart c10env {} none = .ok ⟨2025, 6, 1⟩ ∧
    ((runExport c10env {} ⟨.unreadable, []⟩).2 =
      (runExport c10env {} ⟨.absent, []⟩).2) ∧
    (∃ s, (World.mk (.parsed c10stateBadDate) []).stateFile = .parsed s ∧
      s.lastExportDate ≠ "" ∧ parseFileDate s.lastExportDate = none) :=
  ⟨state_load_error_tolerance.1 .unreadable (Or.inr (Or.inl rfl)),
   by rw [state_load_error_tolerance.2.1 c10env {} none rfl rfl]; rfl,
   (state_load_error_tolerance.2.2.1 c10env {} [] .unreadable (Or.inl rfl)).1,
   state_load_error_tolerance.2.2.2 c10env {}
     (World.mk (.parsed c10stateBadDate) []) (by decide)⟩

/-! ## C2 -/

/-- Two run environments observing the same remote data and filesystem
behaviour, possibly at different times: every oracle agrees except the
clock timestamp `nowTS`. -/
def Env.sameData (e1 e2 : Env) : Prop :=
  e1.mkdir = e2.mkdir ∧ e1.discover = e2.discover ∧ e1.fetch = e2.fetch ∧
  e1.parseDate = e2.parseDate ∧ e1.getExec = e2.getExec ∧
  e1.saveDay = e2.saveDay ∧ e1.saveState = e2.saveState ∧ e1.now = e2.now

theorem env_eta (e1 e2 : Env) (h : Env.sameData e1 e2) :
    e2 = { e1 with nowTS := e2.nowTS } := by
  obtain ⟨h1, h2, h3, h4, h5, h6, h7, h8⟩ := h
  cases e1
  cases e2
  simp_all

theorem resolveStart_explicit (env : Env) (opts : Options)
    (st : Option ExportState) (hfrom : opts.fromDate ≠ "") :
    resolveStart env opts st =
      (match parseFileDate opts.fromDate with
       | none => .error (.invalidFrom opts.fromDate)
       | some d => .ok d) := by
  unfold resolveStart
  rw [if_pos hfrom]

theorem resolveEnd_explicit (env : Env) (opts : Options)
    (hto : opts.toDate ≠ "") :
    resolveEnd env opts =
      (match parseFileDate opts.toDate with
       | none => .error (.invalidTo opts.toDate)
       | some d => .ok d) := by
  unfold resolveEnd
  rw [if_pos hto]

/-- The per-day loops of two runs over the same data write the same
dates in the same way: every archive entry is either freshly written
from the same trade list or carried over unchanged from the respective
starting archive set. -/
theorem persistDays_sameData (e1 e2 : Env) (opts : Options)
    (hsd : e1.saveDay = e2.saveDay) (byDate : List (String × List Trade)) :
    ∀ (dates : List String) (A1 A2 : List (String × DayExport)),
      (persistDays e1 opts byDate dates A1).2 =
        (persistDays e2 opts byDate dates A2).2 ∧
      ∀ d,
        (∃ tr,
          lookupArchive (persistDays e1 opts byDate dates A1).1 d =
            some (mkDay e1 opts d tr) ∧
          lookupArchive (persistDays e2 opts byDate dates A2).1 d =
            some (mkDay e2 opts d tr)) ∨
        (lookupArchive (persistDays e1 opts byDate dates A1).1 d =
            lookupArchive A1 d ∧
         lookupArchive (persistDays e2 opts byDate dates A2).1 d =
            lookupArchive A2 d) := by
  intro dates
  induction dates with
  | nil => exact fun A1 A2 => ⟨rfl, fun d => Or.inr ⟨rfl, rfl⟩⟩
  | cons d0 rest ih =>
    intro A1 A2
    unfold persistDays
    rw [← hsd]
    cases hs : e1.saveDay d0 with
    | some e =>
      simp only [hs]
      refine ⟨?_, fun d => Or.inr ⟨?_, ?_⟩⟩ <;> trivial
    | none =>
      simp only [hs]
      obtain ⟨herr, hlook⟩ :=
        ih (setArchive A1 d0 (mkDay e1 opts d0 (bucketGet byDate d0)))
          (setArchive A2 d0 (mkDay e2 opts d0 (bucketGet byDate d0)))
      refine ⟨herr, fun d => ?_⟩
      rcases hlook d with ⟨tr, h1, h2⟩ | ⟨h1, h2⟩
      · exact Or.inl ⟨tr, h1, h2⟩
      · by_cases hd : d = d0
        · subst hd
          rw [h1, h2, lookupArchive_setArchive, lookupArchive_setArchive,
            if_pos rfl, if_pos rfl]
          exact Or.inl ⟨bucketGet byDate d, rfl, rfl⟩
        · rw [h1, h2, lookupArchive_setArchive, lookupArchive_setArchive,
            if_neg hd, if_neg hd]
          exact Or.inr ⟨rfl, rfl⟩

theorem runPersist_sameData (e1 e2 : Env) (opts : Options)
    (hpd : e1.parseDate = e2.parseDate) (hsd : e1.saveDay = e2.saveDay)
    (hsv : e1.saveState = e2.saveState) (allTrades : List Trade)
    (A1 A2 : List (String × DayExport)) (st1 st2 : Option ExportState) :
    (runPersist e1 opts allTrades A1 st1).err =
      (runPersist e2 opts allTrades A2 st2).err ∧
    ∀ d,
      (∃ tr,
        lookupArchive (runPersist e1 opts allTrades A1 st1).archives d =
          some (mkDay e1 opts d tr) ∧
        lookupArchive (runPersist e2 opts allTrades A2 st2).archives d =
          some (mkDay e2 opts d tr)) ∨
      (lookupArchive (runPersist e1 opts allTrades A1 st1).archives d =
          lookupArchive A1 d ∧
       lookupArchive (runPersist e2 opts allTrades A2 st2).archives d =
          lookupArchive A2 d) := by
  unfold runPersist
  rw [← hpd, ← hsv]
  cases hsort : sortStrings ((groupTradesByDate e1.parseDate allTrades).map
      Prod.fst) with
  | nil =>
    simp only [hsort]
    refine ⟨?_, fun d => Or.inr ⟨?_, ?_⟩⟩ <;> trivial
  | cons d0 rest =>
    simp only [hsort]
    obtain ⟨herr, hlook⟩ := persistDays_sameData e1 e2 opts hsd
      (groupTradesByDate e1.parseDate allTrades) (d0 :: rest) A1 A2
    rcases hp1 : persistDays e1 opts (groupTradesByDate e1.parseDate allTrades)
        (d0 :: rest) A1 with ⟨B1, oe1⟩
    rcases hp2 : persistDays e2 opts (groupTradesByDate e1.parseDate allTrades)
        (d0 :: rest) A2 with ⟨B2, oe2⟩
    rw [hp1, hp2] at herr
    simp only at herr
    rw [hp1, hp2] at hlook
    simp only at hlook
    subst herr
    cases oe1 with
    | some er => exact ⟨rfl, hlook⟩
    | none =>
      cases hst : e1.saveState with
      | some e =>
        simp only [hst]
        exact ⟨by trivial, hlook⟩
      | none =>
        simp only [hst]
        exact ⟨by trivial, hlook⟩

theorem runBody_sameData (e1 e2 : Env) (opts : Options) (h : Env.sameData e1 e2)
    (hfrom : opts.fromDate ≠ "") (hto : opts.toDate ≠ "")
    (A1 A2 : List (String × DayExport)) (st1 st2 : Option ExportState) :
    (runBody e1 opts A1 st1).err = (runBody e2 opts A2 st2).err ∧
    ∀ d,
      (∃ tr,
        lookupArchive (runBody e1 opts A1 st1).archives d =
          some (mkDay e1 opts d tr) ∧
        lookupArchive (runBody e2 opts A2 st2).archives d =
          some (mkDay e2 opts d tr)) ∨
      (lookupArchive (runBody e1 opts A1 st1).archives d = lookupArchive A1 d ∧
       lookupArchive (runBody e2 opts A2 st2).archives d = lookupArchive A2 d) := by
  obtain ⟨hmk0, hdis, hfe, hpd, hge, hsd, hsv, hnow⟩ := h
  unfold runBody
  rw [resolveStart_explicit e1 opts st1 hfrom,
    resolveStart_explicit e2 opts st2 hfrom,
    resolveEnd_explicit e1 opts hto, resolveEnd_explicit e2 opts hto,
    ← hmk0, ← hfe]
  cases hmk : e1.mkdir with
  | some e =>
    simp only [hmk]
    refine ⟨?_, fun d => Or.inr ⟨?_, ?_⟩⟩ <;> trivial
  | none =>
    simp only [hmk]
    cases hpf : parseFileDate opts.fromDate with
    | none =>
      simp only [hpf]
      refine ⟨?_, fun d => Or.inr ⟨?_, ?_⟩⟩ <;> trivial
    | some sd =>
      simp only [hpf]
      cases hpt : parseFileDate opts.toDate with
      | none =>
        simp only [hpt]
        refine ⟨?_, fun d => Or.inr ⟨?_, ?_⟩⟩ <;> trivial
      | some ed =>
        simp only [hpt]
        cases hdl : dateLt ed sd with
        | true =>
          simp only [hdl, if_true]
          refine ⟨?_, fun d => Or.inr ⟨?_, ?_⟩⟩ <;> trivial
        | false =>
          simp only [hdl, Bool.false_eq_true, if_false]
          cases hf : e1.fetch sd ed with
          | error e =>
            simp only [hf]
            refine ⟨?_, fun d => Or.inr ⟨?_, ?_⟩⟩ <;> trivial
          | ok allTrades =>
            simp only [hf]
            cases hne : allTrades.isEmpty with
            | true =>
              simp only [hne, if_true]
              refine ⟨?_, fun d => Or.inr ⟨?_, ?_⟩⟩ <;> trivial
            | false =>
              simp only [hne, Bool.false_eq_true, if_false]
              exact runPersist_sameData e1 e2 opts hpd hsd hsv allTrades
                A1 A2 st1 st2

theorem mkDay_sameData (e1 e2 : Env) (opts : Options)
    (hge : e1.getExec = e2.getExec) (d : String) (tr : List Trade) :
    (mkDay e2 opts d tr).date = (mkDay e1 opts d tr).date ∧
    (mkDay e2 opts d tr).trades = (mkDay e1 opts d tr).trades ∧
    (mkDay e2 opts d tr).executions = (mkDay e1 opts d tr).executions ∧
    (mkDay e2 opts d tr).journal = (mkDay e1 opts d tr).journal := by
  unfold mkDay
  simp [hge]

theorem mkDay_eq_of_ts (e1 e2 : Env) (opts : Options)
    (hge : e1.getExec = e2.getExec) (hts : e2.nowTS = e1.nowTS)
    (d : String) (tr : List Trade) :
    mkDay e2 opts d tr = mkDay e1 opts d tr := by
  unfold mkDay
  rw [← hge, hts]

/-- C2, amended: re-running an explicit-window export with the overwrite
flag on unchanged remote data rewrites every touched date's archive
with identical date, trade list, and sub-record content; the serialized
bytes of the second run's archive are identical to the first run's
exactly when the two runs observed the same clock — the `exported_at`
timestamp is the only content that changes between the runs (the
counterexample exhibits the byte-level difference). -/
theorem rerun_reproduces_archives (e1 e2 : Env) (opts : Options) (w : World)
    (h : Env.sameData e1 e2) (hfrom : opts.fromDate ≠ "")
    (hto : opts.toDate ≠ "") (hforce : opts.force = true)
    (d : String) (day1 day2 : DayExport)
    (h1 : lookupArchive (runExport e1 opts w).1.archives d = some day1)
    (h2 : lookupArchive
      (runExport e2 opts (runExport e1 opts w).1).1.archives d = some day2) :
    (day2.date = day1.date ∧ day2.trades = day1.trades ∧
      day2.executions = day1.executions ∧ day2.journal = day1.journal) ∧
    (e2.nowTS = e1.nowTS → marshalDayExport day2 = marshalDayExport day1) := by
  have hA1 : (runExport e1 opts w).1.archives =
      (runBody e1 opts w.archives (loadState w.stateFile)).archives := rfl
  have hA2 : (runExport e2 opts (runExport e1 opts w).1).1.archives =
      (runBody e2 opts (runExport e1 opts w).1.archives
        (loadState (runExport e1 opts w).1.stateFile)).archives := rfl
  obtain ⟨herr, hlook⟩ := runBody_sameData e1 e2 opts h hfrom hto
    w.archives (runExport e1 opts w).1.archives
    (loadState w.stateFile) (loadState (runExport e1 opts w).1.stateFile)
  have hge : e1.getExec = e2.getExec := h.2.2.2.2.1
  rcases hlook d with ⟨tr, ha1, ha2⟩ | ⟨ha1, ha2⟩
  · rw [← hA1] at ha1
    rw [← hA2] at ha2
    rw [h1] at ha1
    rw [h2] at ha2
    have hd1 : day1 = mkDay e1 opts d tr := Option.some_inj.mp ha1
    have hd2 : day2 = mkDay e2 opts d tr := Option.some_inj.mp ha2
    subst hd1
    subst hd2
    refine ⟨mkDay_sameData e1 e2 opts hge d tr, fun hts => ?_⟩
    rw [mkDay_eq_of_ts e1 e2 opts hge hts d tr]
  · rw [← hA2] at ha2
    rw [h2] at ha2
    rw [h1] at ha2
    have hd : day2 = day1 := Option.some_inj.mp ha2
    subst hd
    exact ⟨⟨rfl, rfl, rfl, rfl⟩, fun _ => rfl⟩

def c2trade : Trade :=
  { id := 9, symbol := "AAPL", volume := 100, side := "L"
    startDatetime := "2025-01-02" }

def c2env1 : Env :=
  { discover := .ok ⟨2025, 1, 2⟩
    fetch := fun _ _ => .ok [c2trade]
    parseDate := parseFileDate
    now := ⟨2025, 1, 2⟩
    nowTS := 1000 }

def c2env2 : Env := { c2env1 with nowTS := 2000 }

def c2opts : Options :=
  { fromDate := "2025-01-02", toDate := "2025-01-02", force := true }

def c2world : World := { stateFile := .absent, archives := [] }

def c2day1 : DayExport :=
  { date := "2025-01-02", trades := [c2trade], exportedAt := 1000 }

def c2day2 : DayExport :=
  { date := "2025-01-02", trades := [c2trade], exportedAt := 2000 }

/-- Counterexample to C2 as stated: two runs over the same explicit
window, with overwrite, on identical remote data, but at different
times (export timestamps 1000 and 2000), produce archives for
2025-01-02 whose serialized bytes differ — the serialized `exported_at`
field changes between the runs, so the second archive is NOT
byte-for-byte identical to the first. -/
theorem rerun_bytes_differ_counterexample :
    lookupArchive (runExport c2env1 c2opts c2world).1.archives "2025-01-02" =
      some c2day1 ∧
    lookupArchive (runExport c2env2 c2opts
        (runExport c2env1 c2opts c2world).1).1.archives "2025-01-02" =
      some c2day2 ∧
    marshalDayExport c2day2 ≠ marshalDayExport c2day1 :=
  ⟨by decide, by decide, by decide⟩

/-- Witness for C2 (amended): the second run's archive carries the same
date/trades/executions content, and a re-run observing the same clock
reproduces the bytes exactly. -/
theorem rerun_reproduces_archives_witness :
    ((c2day2.date = c2day1.date ∧ c2day2.trades = c2day1.trades ∧
      c2day2.executions = c2day1.executions ∧
      c2day2.journal = c2day1.journal) ∧
     (c2env2.nowTS = c2env1.nowTS →
       marshalDayExport c2day2 = marshalDayExport c2day1)) ∧
    marshalDayExport c2day1 = marshalDayExport c2day1 :=
  ⟨rerun_reproduces_archives c2env1 c2env2 c2opts c2world
     ⟨rfl, rfl, rfl, rfl, rfl, rfl, rfl, rfl⟩ (by decide) (by decide) rfl
     "2025-01-02" c2day1 c2day2 (by decide) (by decide),
   (rerun_reproduces_archives c2env1 c2env1 c2opts c2world
     ⟨rfl, rfl, rfl, rfl, rfl, rfl, rfl, rfl⟩ (by decide) (by decide) rfl
     "2025-01-02" c2day1 c2day1 (by decide) (by decide)).2 rfl⟩

end TvExporter
